import Mathlib

/-!
# Verification of the wasmcraft2 SSA→LIR lowering core

Shallow embedding of the backend lowering core (`src/ssa/lir_emitter.rs`,
`src/ssa/reg_alloc.rs`) of the wasmcraft2 compiler, together with proofs
about the emitted LIR.

The `lir` module (register and instruction datatypes), the liveness
analysis, the dominator tree and the call graph are not part of the
provided sources; where a definition from those modules is needed it is
modelled from the specification and marked as such in its doc comment.
All lowering logic itself is translated directly from the Rust sources.
-/

set_option maxHeartbeats 1000000

namespace Wasmcraft

/-- WebAssembly value types used by the lowering core (wasmparser `ValType`,
restricted to the four numeric types the emitter handles). -/
inductive ValType where
  | i32
  | i64
  | f32
  | f64
deriving DecidableEq, Repr

/-- `true` for the types lowered through a 32-bit register (`I32 | F32`),
`false` for those lowered through a register pair (`I64 | F64`).
This is the case split every `match dst.ty()` in `lower_block` performs. -/
def ValType.isSingle : ValType → Bool
  | .i32 => true
  | .f32 => true
  | .i64 => false
  | .f64 => false

/-- A typed SSA variable: `TypedSsaVar(u32, ValType)` from `ssa/mod.rs`. -/
structure TypedSsaVar where
  id : Nat
  ty : ValType
deriving DecidableEq, Repr

/-- `BlockId { func, block }` from `ssa/mod.rs`. -/
structure BlockId where
  func : Nat
  block : Nat
deriving DecidableEq, Repr

/-- Which half of a 64-bit value a 32-bit register holds. -/
inductive Half where
  | lo
  | hi
deriving DecidableEq, Repr

/-- Modelled from the spec: the `lir` module is not among the provided
sources.  A `Register` is a symbolic 32-bit location with a tagged origin:
`Work(func_id, rep_id)`, `Param(idx)`, `Return(idx)`, `Temp(idx)`,
`Const(value)`, or the distinguished `cond_taken` flag (spec §3).
`Register::work_lo`, `Register::temp_lo`, `Register::param_lo` pick the
low half of the corresponding pair. -/
inductive Register where
  | work (func : Nat) (id : Nat) (h : Half)
  | temp (idx : Nat) (h : Half)
  | param (idx : Nat) (h : Half)
  | ret (idx : Nat) (h : Half)
  | const (v : Int)
  | condTaken
deriving DecidableEq, Repr

/-- `Register::temp_lo(idx)`. -/
def Register.temp_lo (idx : Nat) : Register := .temp idx .lo

/-- `Register::work_lo(func, id)`. -/
def Register.work_lo (func id : Nat) : Register := .work func id .lo

/-- `Register::param_lo(idx)`. -/
def Register.param_lo (idx : Nat) : Register := .param idx .lo

/-- `Register::return_lo(idx)`. -/
def Register.return_lo (idx : Nat) : Register := .ret idx .lo

/-- `Register::cond_taken()`. -/
def Register.cond_taken : Register := .condTaken

/-- `Register::get_const`: the constant held by a `Const` register. -/
def Register.get_const : Register → Option Int
  | .const v => some v
  | _ => none

/-- `true` exactly for `Temp` registers (the scratch registers
`Register::temp_lo` used by `emit_copy` and the address computations). -/
def Register.isTemp : Register → Bool
  | .temp _ _ => true
  | _ => false

/-- `true` for registers that are neither scratch (`Temp`) nor `Const`:
the work/param/return registers the register allocator hands out for
SSA variables. -/
def Register.noScratch : Register → Bool
  | .temp _ _ => false
  | .const _ => false
  | _ => true

/-- Wrap an integer to the signed 32-bit range, as Rust `as i32` casts do. -/
def wrap32 (v : Int) : Int := (v + 2 ^ 31) % 2 ^ 32 - 2 ^ 31

/-- Modelled from the spec: a `DoubleRegister` is a pair of 32-bit
registers treated as (lo, hi) halves of a 64-bit value; a double may be a
work, param, return, temp, or constant double; two doubles are equal iff
both halves are equal (spec §3). -/
inductive DoubleRegister where
  | work (func : Nat) (id : Nat)
  | temp (idx : Nat)
  | param (idx : Nat)
  | ret (idx : Nat)
  | const (v : Int)
deriving DecidableEq, Repr

/-- `DoubleRegister::lo()`. -/
def DoubleRegister.lo : DoubleRegister → Register
  | .work f i => .work f i .lo
  | .temp i => .temp i .lo
  | .param i => .param i .lo
  | .ret i => .ret i .lo
  | .const v => .const (wrap32 v)

/-- `DoubleRegister::hi()`. -/
def DoubleRegister.hi : DoubleRegister → Register
  | .work f i => .work f i .hi
  | .temp i => .temp i .hi
  | .param i => .param i .hi
  | .ret i => .ret i .hi
  | .const v => .const (wrap32 (Int.fdiv v (2 ^ 32)))

/-- `DoubleRegister::return_reg(idx)`. -/
def DoubleRegister.return_reg (idx : Nat) : DoubleRegister := .ret idx

/-- Modelled from the spec: a `StaticValue` is a lattice element
{Unknown, Constant(v)} summarizing a variable's compile-time-known value
(spec §3, glossary); `none` stands for `Unknown`. -/
def StaticValue := Option Int
deriving instance DecidableEq, Repr for StaticValue

/-- `RegisterWithInfo(Register, StaticValue)` from `lir_emitter.rs`. -/
structure RegisterWithInfo where
  reg : Register
  info : StaticValue
deriving DecidableEq, Repr

/-- `RegisterWithInfo::new` — a register with unknown static value
(`From<Register> for RegisterWithInfo` / `.into()`). -/
def RegisterWithInfo.new (r : Register) : RegisterWithInfo := ⟨r, none⟩

/-- An operand that is either an SSA variable or a literal constant
(`SsaVarOrConst` from `ssa/mod.rs`).  The constant is kept as the integer
value the emitter extracts with `into_i32` / `into_i64`. -/
inductive SsaVarOrConst where
  | var (v : TypedSsaVar)
  | const (c : Int)
deriving DecidableEq, Repr

/-- `SsaVarOrConst::get_var`. -/
def SsaVarOrConst.get_var : SsaVarOrConst → Option TypedSsaVar
  | .var v => some v
  | .const _ => none

/-- `Condition` from the `lir` module (modelled from its uses in
`lower_block`): `eq_zero`, `neq_zero`, `eq_const`, and `NotMatches` over
an inclusive range. -/
inductive Cond where
  | eqZero (r : Register)
  | neqZero (r : Register)
  | eqConst (r : Register) (v : Int)
  | notMatches (r : Register) (lov hiv : Int)
deriving DecidableEq, Repr

/-- `LirJumpTarget { label, cmd_check }`. -/
structure LirJumpTarget where
  label : BlockId
  cmd_check : Bool
deriving DecidableEq, Repr

/-- The fragment of the LIR instruction set produced by the code paths
verified here (the full `LirInstr` enum lives in the missing `lir`
module; constructors are modelled one-for-one from the variants
`lower_block` and its helpers construct). -/
inductive LirInstr where
  | assign (dst src : Register)
  | set (dst : Register) (v : Int)
  | add (dst src : Register)
  | add64 (dst lhs rhs : DoubleRegister)
  | load32 (dst : Register) (addr : RegisterWithInfo)
  | load64 (dst : DoubleRegister) (addr : RegisterWithInfo)
  | store32 (src : Register) (addr : RegisterWithInfo)
  | push (regs : List Register)
  | pop (regs : List Register)
  | call (func : Nat)
  | callIndirect (table : List (Option Nat)) (table_entry : Register)
  | pushReturnAddr (label : BlockId)
  | popReturnAddr
  | ifCond (c : Cond) (i : LirInstr)
deriving DecidableEq, Repr

/-- `LirInstr::if_cond` applied to a whole list of conditions, as the
`add_instr` closure in `emit_copy` does (`for cond in conds { instr =
instr.if_cond(cond) }`). -/
def wrapConds (conds : List Cond) (i : LirInstr) : LirInstr :=
  conds.foldl (fun acc c => LirInstr.ifCond c acc) i

/-- LIR terminators (spec §3 / §6). -/
inductive LirTerminator where
  | ret
  | retToSaved
  | jump (target : LirJumpTarget)
  | jumpIf (true_label false_label : LirJumpTarget) (cond : Register)
  | jumpTable (arms : List (Option BlockId)) (default : Option BlockId) (cond : Register)
  | scheduleJump (label : BlockId) (delay : Nat)
deriving DecidableEq, Repr

/-- `LirBasicBlock { body, term }`. -/
structure LirBasicBlock where
  body : List LirInstr
  term : LirTerminator
deriving DecidableEq, Repr

end Wasmcraft

namespace Wasmcraft

/-! ## Execution semantics of straight-line LIR

Registers hold 32-bit integers; a machine state maps registers to the
integer they hold.  `Const` registers read as their constant. -/

/-- A register state. -/
def RegState := Register → Int

/-- Reading a register: a `Const` register always reads as its value. -/
def regValue (σ : RegState) (r : Register) : Int :=
  match r with
  | .const v => v
  | r => σ r

/-- Evaluate an instruction condition in a state. -/
def evalCond (σ : RegState) : Cond → Bool
  | .eqZero r => regValue σ r == 0
  | .neqZero r => !(regValue σ r == 0)
  | .eqConst r v => regValue σ r == v
  | .notMatches r lov hiv => !(lov ≤ regValue σ r && regValue σ r ≤ hiv)

/-- One step: the effect of a single LIR instruction on the register
state.  Only the register-moving instructions matter for the claims;
instructions without a register-file effect leave the state unchanged. -/
def execInstr (σ : RegState) : LirInstr → RegState
  | .assign d s => Function.update σ d (regValue σ s)
  | .set d v => Function.update σ d v
  | .add d s => Function.update σ d (regValue σ d + regValue σ s)
  | .ifCond c i => if evalCond σ c then execInstr σ i else σ
  | _ => σ

/-- Execute a list of instructions left to right. -/
def execList (σ : RegState) (l : List LirInstr) : RegState :=
  l.foldl execInstr σ

/-! ## The register allocator interface

`RegAlloc` (`reg_alloc.rs`) is a trait with lookup methods `get`,
`get_double`, `get_const`, `get_double_const` and the stateful
`get_temp` / `get_temp_double`.  The lookup part is modelled as a pair
of functions; both concrete allocators (`NoopRegAlloc`, `FullRegAlloc`)
are deterministic maps of this shape.  The temp counter is threaded
explicitly where `get_temp` is called. -/

/-- The lookup interface of a register allocator: `get` maps an untyped
SSA variable id to its 32-bit register, `get_double` to its register
pair. -/
structure RA where
  get : Nat → Register
  getDouble : Nat → DoubleRegister

/-- `NoopRegAlloc`: every SSA variable is its own work register. -/
def NoopRegAlloc.ra (func : Nat) : RA :=
  ⟨fun v => Register.work_lo func v, fun v => DoubleRegister.work func v⟩

/-- `RegAlloc::get_const` (both allocators): a `Const` register holding
the value (the constant-pool bookkeeping has no effect on the emitted
register). -/
def RA.get_const (_ : RA) (v : Int) : Register := .const v

/-- `RegAlloc::get_double_const` (both allocators). -/
def RA.get_double_const (_ : RA) (v : Int) : DoubleRegister := .const v

/-- `map_ra_i32` from `lower_block`. -/
def map_ra_i32 (r : SsaVarOrConst) (ra : RA) : Register :=
  match r with
  | .var v => ra.get v.id
  | .const c => ra.get_const (wrap32 c)

/-- `map_ra_i64` from `lower_block`. -/
def map_ra_i64 (r : SsaVarOrConst) (ra : RA) : DoubleRegister :=
  match r with
  | .var v => ra.getDouble v.id
  | .const c => ra.get_double_const c

/-! ## Parallel copies: `emit_copy` (`lir_emitter.rs` lines 1214–1269)

`emit_copy` receives the jump arguments (`in_params`) and the target
block's parameters (`out_params`), drops pairs already allocated to the
same (double) register, expands the remainder into 32-bit half pairs,
and emits direct or scratch-mediated `Assign`s. -/

/-- The kept variable pairs: `in_params.zip(out_params).filter(...)` —
a pair survives when its allocated registers differ (32-bit compare for
I32/F32, whole-double compare for I64/F64). -/
def param_pairs (ra : RA) (inP outP : List TypedSsaVar) :
    List (TypedSsaVar × TypedSsaVar) :=
  (inP.zip outP).filter fun p =>
    match p.1.ty with
    | .i32 | .f32 => !(ra.get p.1.id == ra.get p.2.id)
    | .i64 | .f64 => !(ra.getDouble p.1.id == ra.getDouble p.2.id)

/-- Expansion of one variable pair into its 32-bit register half
pairs (singleton for I32/F32, lo/hi pair for I64/F64). -/
def halfPairs (ra : RA) (p : TypedSsaVar × TypedSsaVar) :
    List (Register × Register) :=
  match p.1.ty with
  | .i32 | .f32 => [(ra.get p.1.id, ra.get p.2.id)]
  | .i64 | .f64 =>
      [((ra.getDouble p.1.id).lo, (ra.getDouble p.2.id).lo),
       ((ra.getDouble p.1.id).hi, (ra.getDouble p.2.id).hi)]

/-- `reg_pairs` in `emit_copy`: kept pairs expanded into half pairs. -/
def reg_pairs (ra : RA) (inP outP : List TypedSsaVar) :
    List (Register × Register) :=
  (param_pairs ra inP outP).flatMap (halfPairs ra)

/-- All half pairs, including those `emit_copy` drops as identities.
Used to state what the emitted sequence does to every destination. -/
def all_half_pairs (ra : RA) (inP outP : List TypedSsaVar) :
    List (Register × Register) :=
  (inP.zip outP).flatMap (halfPairs ra)

/-- `need_tmp` in `emit_copy`: the sources of pairs whose destination
also occurs as the source of some pair
(`reg_pairs.filter(|(_, o)| reg_pairs.any(|(i2, _)| *o == i2)).map(|(i, _)| i)`). -/
def need_tmp (ps : List (Register × Register)) : List Register :=
  (ps.filter fun p => ps.any fun q => p.2 == q.1).map Prod.fst

/-- The emission loop of `emit_copy` over the half pairs: direct
assignments for sources outside `need_tmp`, then saves of `need_tmp`
sources into per-index scratch registers, then moves from the scratch
registers into the destinations.  Each instruction is wrapped in the
given conditions exactly as `add_instr` does. -/
def emit_copy_regs (conds : List Cond) (ps : List (Register × Register)) :
    List LirInstr :=
  ((ps.filter fun p => !(need_tmp ps).contains p.1).map fun p =>
      wrapConds conds (.assign p.2 p.1))
  ++ ((ps.enum.filter fun q => (need_tmp ps).contains q.2.1).map fun q =>
      wrapConds conds (.assign (Register.temp_lo q.1) q.2.1))
  ++ ((ps.enum.filter fun q => (need_tmp ps).contains q.2.1).map fun q =>
      wrapConds conds (.assign q.2.2 (Register.temp_lo q.1)))

/-- `emit_copy(block, in_params, out_params, ra, conds)`: the
instructions appended to the block. -/
def emit_copy (ra : RA) (inP outP : List TypedSsaVar) (conds : List Cond) :
    List LirInstr :=
  emit_copy_regs conds (reg_pairs ra inP outP)

end Wasmcraft

namespace Wasmcraft

/-! ## 64-bit loads and stores (`lower_block`, `SsaInstr::Load64` lines
605–629 and `SsaInstr::Store64` lines 637–666)

`offset` is the memory immediate's offset after the Rust `as i32` cast. -/

/-- Lowering of `SsaInstr::Load64(mem, dst, addr)`. -/
def lower_load64 (ra : RA) (dst : TypedSsaVar) (addr : SsaVarOrConst)
    (offset : Int) : List LirInstr :=
  let dstD := ra.getDouble dst.id
  let a := map_ra_i32 addr ra
  match a.get_const with
  | some c =>
      [.load32 dstD.lo (RegisterWithInfo.new (ra.get_const (c + offset))),
       .load32 dstD.hi (RegisterWithInfo.new (ra.get_const (c + offset + 4)))]
  | none =>
      [.assign (Register.temp_lo 0) a,
       .add (Register.temp_lo 0) (ra.get_const offset),
       .load64 dstD (RegisterWithInfo.new (Register.temp_lo 0))]

/-- Lowering of `SsaInstr::Store64(mem, src, addr)`. -/
def lower_store64 (ra : RA) (src : TypedSsaVar) (addr : SsaVarOrConst)
    (offset : Int) : List LirInstr :=
  let srcD := ra.getDouble src.id
  let a := map_ra_i32 addr ra
  match a.get_const with
  | some c =>
      [.store32 srcD.lo (RegisterWithInfo.new (ra.get_const (c + offset))),
       .store32 srcD.hi (RegisterWithInfo.new (ra.get_const (c + offset + 4)))]
  | none =>
      [.assign (Register.temp_lo 0) a,
       .add (Register.temp_lo 0) (ra.get_const offset),
       .store32 srcD.lo (RegisterWithInfo.new (Register.temp_lo 0)),
       .assign (Register.temp_lo 0) a,
       .add (Register.temp_lo 0) (ra.get_const (offset + 4)),
       .store32 srcD.hi (RegisterWithInfo.new (Register.temp_lo 0))]

/-- A 32-bit memory access performed by the emitted LIR: which register
receives/supplies the value and at which effective address. -/
inductive MemAccess where
  | load (reg : Register) (addr : Int)
  | store (reg : Register) (addr : Int)
deriving DecidableEq, Repr

/-- The 32-bit accesses one LIR instruction performs in a given state.
The two-access footprint of the `Load64` opcode (low half at `p`, high
half at `p+4`) is modelled from the spec (§4.6: 64-bit loads/stores
decompose into two 32-bit accesses at `p+offset` and `p+offset+4`,
little-endian halves); the `lir` module defining it is not in the
provided sources. -/
def instrAccesses (σ : RegState) : LirInstr → List MemAccess
  | .load32 d a => [.load d (regValue σ a.reg)]
  | .load64 d a => [.load d.lo (regValue σ a.reg),
                    .load d.hi (regValue σ a.reg + 4)]
  | .store32 s a => [.store s (regValue σ a.reg)]
  | _ => []

/-- The accesses performed by a straight-line instruction sequence,
threading the register state. -/
def execAccesses (σ : RegState) : List LirInstr → List MemAccess
  | [] => []
  | i :: l => instrAccesses σ i ++ execAccesses (execInstr σ i) l

end Wasmcraft

namespace Wasmcraft

/-- C5: every 64-bit load and store lowered by the emitter performs two
32-bit memory accesses at effective addresses `p+offset` and
`p+offset+4`, where `p` is the base address: the low half of the 64-bit
value at `p+offset` and the high half at `p+offset+4`.  (For the store
with a non-constant base the scratch register `temp_lo 0` recomputes the
address, so the base register must not itself be that scratch; both
concrete allocators only produce work or constant registers here.) -/
theorem load64_store64_two_accesses :
    (∀ (ra : RA) (dst : TypedSsaVar) (addr : SsaVarOrConst) (offset : Int)
        (σ : RegState),
      execAccesses σ (lower_load64 ra dst addr offset) =
        [.load (ra.getDouble dst.id).lo (regValue σ (map_ra_i32 addr ra) + offset),
         .load (ra.getDouble dst.id).hi (regValue σ (map_ra_i32 addr ra) + offset + 4)])
    ∧ (∀ (ra : RA) (src : TypedSsaVar) (addr : SsaVarOrConst) (offset : Int)
        (σ : RegState),
      map_ra_i32 addr ra ≠ Register.temp_lo 0 →
      execAccesses σ (lower_store64 ra src addr offset) =
        [.store (ra.getDouble src.id).lo (regValue σ (map_ra_i32 addr ra) + offset),
         .store (ra.getDouble src.id).hi (regValue σ (map_ra_i32 addr ra) + offset + 4)]) := by
  constructor
  · intro ra dst addr offset σ
    cases ha : map_ra_i32 addr ra with
    | const c =>
        simp [lower_load64, ha, Register.get_const, execAccesses, instrAccesses,
          execInstr, regValue, RegisterWithInfo.new, RA.get_const]
    | work f i hh =>
        simp [lower_load64, ha, Register.get_const, execAccesses, instrAccesses,
          execInstr, regValue, RegisterWithInfo.new, RA.get_const,
          Register.temp_lo, Function.update_same, Function.update_apply]
    | temp i hh =>
        by_cases hti : Register.temp i hh = Register.temp_lo 0 <;>
        simp_all [lower_load64, Register.get_const, execAccesses, instrAccesses,
          execInstr, regValue, RegisterWithInfo.new, RA.get_const,
          Register.temp_lo, Function.update_same, Function.update_apply]
    | param i hh =>
        simp [lower_load64, ha, Register.get_const, execAccesses, instrAccesses,
          execInstr, regValue, RegisterWithInfo.new, RA.get_const,
          Register.temp_lo, Function.update_same, Function.update_apply]
    | ret i hh =>
        simp [lower_load64, ha, Register.get_const, execAccesses, instrAccesses,
          execInstr, regValue, RegisterWithInfo.new, RA.get_const,
          Register.temp_lo, Function.update_same, Function.update_apply]
    | condTaken =>
        simp [lower_load64, ha, Register.get_const, execAccesses, instrAccesses,
          execInstr, regValue, RegisterWithInfo.new, RA.get_const,
          Register.temp_lo, Function.update_same, Function.update_apply]
  · intro ra src addr offset σ htmp
    cases ha : map_ra_i32 addr ra with
    | const c =>
        simp [lower_store64, ha, Register.get_const, execAccesses, instrAccesses,
          execInstr, regValue, RegisterWithInfo.new, RA.get_const]
    | work f i hh =>
        rw [ha] at htmp
        simp [lower_store64, ha, Register.get_const, execAccesses, instrAccesses,
          execInstr, regValue, RegisterWithInfo.new, RA.get_const, add_assoc,
          Register.temp_lo, Function.update_same, Function.update_apply]
    | temp i hh =>
        rw [ha] at htmp
        have hne : Register.temp i hh ≠ Register.temp 0 Half.lo := by
          simpa [Register.temp_lo] using htmp
        simp [lower_store64, ha, Register.get_const, execAccesses, instrAccesses,
          execInstr, regValue, RegisterWithInfo.new, RA.get_const, add_assoc,
          Register.temp_lo, Function.update_same, Function.update_apply, hne]
    | param i hh =>
        rw [ha] at htmp
        simp [lower_store64, ha, Register.get_const, execAccesses, instrAccesses,
          execInstr, regValue, RegisterWithInfo.new, RA.get_const, add_assoc,
          Register.temp_lo, Function.update_same, Function.update_apply]
    | ret i hh =>
        rw [ha] at htmp
        simp [lower_store64, ha, Register.get_const, execAccesses, instrAccesses,
          execInstr, regValue, RegisterWithInfo.new, RA.get_const, add_assoc,
          Register.temp_lo, Function.update_same, Function.update_apply]
    | condTaken =>
        rw [ha] at htmp
        simp [lower_store64, ha, Register.get_const, execAccesses, instrAccesses,
          execInstr, regValue, RegisterWithInfo.new, RA.get_const, add_assoc,
          Register.temp_lo, Function.update_same, Function.update_apply]

/-- Witness for C5: the store half of the theorem applied at a concrete
input (a work-register base, offset 16). -/
theorem load64_store64_two_accesses_witness :
    map_ra_i32 (.var ⟨3, .i32⟩) (NoopRegAlloc.ra 0) ≠ Register.temp_lo 0
    ∧ execAccesses (fun _ => 7)
        (lower_store64 (NoopRegAlloc.ra 0) ⟨5, .i64⟩ (.var ⟨3, .i32⟩) 16) =
        [.store (Register.work 0 5 .lo) 23, .store (Register.work 0 5 .hi) 27] := by
  refine ⟨by decide, ?_⟩
  have h := load64_store64_two_accesses.2 (NoopRegAlloc.ra 0) ⟨5, .i64⟩
    (.var ⟨3, .i32⟩) 16 (fun _ => 7) (by decide)
  simpa [NoopRegAlloc.ra, map_ra_i32, regValue, Register.work_lo,
    DoubleRegister.lo, DoubleRegister.hi] using h

end Wasmcraft

namespace Wasmcraft

/-! ## The block builder and the call lowerings

`LirFuncBuilder` (`lir_emitter.rs` lines 10–53) tracks the used block
ids and the pushed blocks; `alloc_block_id` scans for the smallest block
index not yet used within the function. -/

/-- `LirFuncBuilder { used_ids, body }`.  The `func` field records the
common function id of every used id (in the source it is recomputed by
`LirFuncBuilder::func` from the id set, which asserts exactly this). -/
structure LirFuncBuilder where
  func : Nat
  used_ids : List BlockId
  body : List (BlockId × LirBasicBlock)
deriving DecidableEq, Repr

/-- `LirFuncBuilder::push`. -/
def LirFuncBuilder.push (b : LirFuncBuilder) (block_id : BlockId)
    (body : List LirInstr) (term : LirTerminator) : LirFuncBuilder :=
  { b with body := b.body ++ [(block_id, ⟨body, term⟩)] }

/-- The scan loop of `alloc_block_id`: the smallest `i ≥ start` (within
`fuel` steps) such that no used id has block index `i`. -/
def smallestFreeFrom (used : List BlockId) : Nat → Nat → Nat
  | 0, i => i
  | fuel + 1, i =>
      if used.all fun id => id.block ≠ i then i
      else smallestFreeFrom used fuel (i + 1)

/-- `LirFuncBuilder::alloc_block_id`: returns the fresh id and marks it
used.  `used.length + 1` steps always suffice to find a free index. -/
def LirFuncBuilder.alloc_block_id (b : LirFuncBuilder) :
    BlockId × LirFuncBuilder :=
  let i := smallestFreeFrom b.used_ids (b.used_ids.length + 1) 0
  let id : BlockId := ⟨b.func, i⟩
  (id, { b with used_ids := b.used_ids ++ [id] })

/-- The emitter's state while walking one SSA block: the id of the block
being filled, the instructions accumulated for it (`block` in
`lower_block`), and the builder. -/
structure EmitSt where
  block_id : BlockId
  cur : List LirInstr
  builder : LirFuncBuilder
deriving DecidableEq, Repr

/-- `emit_copy_to_params` (`lir_emitter.rs` lines 1151–1168). -/
def emit_copy_to_params (params : List TypedSsaVar) (ra : RA) : List LirInstr :=
  params.enum.flatMap fun q =>
    match q.2.ty with
    | .i32 | .f32 => [.assign (Register.param_lo q.1) (ra.get q.2.id)]
    | .i64 | .f64 =>
        [.assign (DoubleRegister.param q.1).lo (ra.getDouble q.2.id).lo,
         .assign (DoubleRegister.param q.1).hi (ra.getDouble q.2.id).hi]

/-- `emit_copy_from_returns` (`lir_emitter.rs` lines 1170–1187). -/
def emit_copy_from_returns (returns : List TypedSsaVar) (ra : RA) : List LirInstr :=
  returns.enum.flatMap fun q =>
    match q.2.ty with
    | .i32 | .f32 => [.assign (ra.get q.2.id) (Register.return_lo q.1)]
    | .i64 | .f64 =>
        [.assign (ra.getDouble q.2.id).lo (DoubleRegister.return_reg q.1).lo,
         .assign (ra.getDouble q.2.id).hi (DoubleRegister.return_reg q.1).hi]

/-- `get_save_reg_list` (`lir_emitter.rs` lines 1189–1204): one register
per I32/F32 variable, the lo/hi pair per I64/F64 variable, in the order
of `to_save`. -/
def get_save_reg_list (to_save : List TypedSsaVar) (ra : RA) : List Register :=
  to_save.flatMap fun var =>
    match var.ty with
    | .i32 | .f32 => [ra.get var.id]
    | .i64 | .f64 => [(ra.getDouble var.id).lo, (ra.getDouble var.id).hi]

/-- The caller-save set at a call site: `live_out_body(block, instr_idx)`
with every return variable removed (`to_save.remove(return_var)`).
`liveOut` is the live-out set in its (hash-set) iteration order. -/
def to_save_list (liveOut returns : List TypedSsaVar) : List TypedSsaVar :=
  liveOut.filter fun v => !returns.contains v

/-- Lowering of `SsaInstr::Call { function_index, params, returns }`
(`lower_block`, lines 816–854).  `mayCall c f` models
`call_graph.may_call(c, f)` (callee `c` may transitively call `f`) and
`singleTick` models `call_graph.is_single_tick`; `jump_mode()` is
`Direct`, the only defined mode. -/
def lower_call (f : Nat) (params returns liveOut : List TypedSsaVar)
    (mayCall : Nat → Nat → Bool) (singleTick : Nat → Bool) (ra : RA)
    (st : EmitSt) : EmitSt :=
  let cur := st.cur ++ emit_copy_to_params params ra
  let to_save := to_save_list liveOut returns
  let needs_save := mayCall f st.block_id.func
  let cur := if needs_save then cur ++ [.push (get_save_reg_list to_save ra)] else cur
  if singleTick f then
    let cur := cur ++ [.call f]
    let cur := if needs_save then cur ++ [.pop (get_save_reg_list to_save ra)] else cur
    { st with cur := cur ++ emit_copy_from_returns returns ra }
  else
    let alloc := st.builder.alloc_block_id
    let next_block_id := alloc.1
    let cur := cur ++ [.pushReturnAddr next_block_id]
    let builder := alloc.2.push st.block_id cur
      (.jump ⟨⟨f, 0⟩, true⟩)
    let cur2 : List LirInstr :=
      if needs_save then [.pop (get_save_reg_list to_save ra)] else []
    { block_id := next_block_id,
      cur := cur2 ++ emit_copy_from_returns returns ra,
      builder := builder }

/-- A function signature (parameter and return types), the part of
`SsaFunction` consulted by `get_compatible_functions`. -/
structure FuncSig where
  params : List ValType
  returns : List ValType
deriving DecidableEq, Repr

/-- The compatibility test inside `get_compatible_functions`
(`lir_emitter.rs` lines 56–73). -/
def sig_compatible (sig : FuncSig) (params returns : List TypedSsaVar) : Bool :=
  !(sig.params.length != params.length
     || (sig.params.zip params).any fun q => !(q.1 == q.2.ty))
  && !(sig.returns.length != returns.length
     || (sig.returns.zip returns).any fun q => !(q.1 == q.2.ty))

/-- `get_compatible_functions`: keep only table slots whose function has
types compatible with the given parameters and returns. -/
def get_compatible_functions (funcs : Nat → FuncSig)
    (tableElems : List (Option Nat)) (params returns : List TypedSsaVar) :
    List (Option Nat) :=
  tableElems.map fun o => o.filter fun idx => sig_compatible (funcs idx) params returns

/-- The trampoline-building arm map of the mixed `CallIndirect` case
(`lower_block` lines 911–927): single-tick arms get a fresh block with
body `Call{f}; PopReturnAddr` and terminator `Jump(K, cmd_check=false)`;
multi-tick arms target the callee's entry block directly. -/
def mk_trampoline_arms (singleTick : Nat → Bool) (k : BlockId) :
    List (Option Nat) → LirFuncBuilder → List (Option BlockId) × LirFuncBuilder
  | [], b => ([], b)
  | none :: rest, b =>
      let r := mk_trampoline_arms singleTick k rest b
      (none :: r.1, r.2)
  | some f :: rest, b =>
      if singleTick f then
        let alloc := b.alloc_block_id
        let b₂ := alloc.2.push alloc.1 [.call f, .popReturnAddr]
          (.jump ⟨k, false⟩)
        let r := mk_trampoline_arms singleTick k rest b₂
        (some alloc.1 :: r.1, r.2)
      else
        let r := mk_trampoline_arms singleTick k rest b
        (some (⟨f, 0⟩ : BlockId) :: r.1, r.2)

/-- Lowering of `SsaInstr::CallIndirect { table_index, table_entry,
params, returns }` (`lower_block`, lines 855–942). -/
def lower_call_indirect (funcs : Nat → FuncSig) (tableElems : List (Option Nat))
    (table_entry : TypedSsaVar) (params returns liveOut : List TypedSsaVar)
    (curFunc : Nat) (mayCall : Nat → Nat → Bool) (singleTick : Nat → Bool)
    (ra : RA) (st : EmitSt) : EmitSt :=
  let cur := st.cur ++ emit_copy_to_params params ra
  let to_save := to_save_list liveOut returns
  let compat := get_compatible_functions funcs tableElems params returns
  let needs_save := (compat.filterMap id).any fun f => f == curFunc || mayCall f curFunc
  let cur := if needs_save then cur ++ [.push (get_save_reg_list to_save ra)] else cur
  let te := ra.get table_entry.id
  let is_only_single_tick := (compat.filterMap id).all fun f => singleTick f
  let is_only_multi_tick := (compat.filterMap id).all fun f => !singleTick f
  if is_only_single_tick then
    let cur := cur ++ [.callIndirect compat te]
    let cur := if needs_save then cur ++ [.pop (get_save_reg_list to_save ra)] else cur
    { st with cur := cur ++ emit_copy_from_returns returns ra }
  else if is_only_multi_tick then
    let alloc := st.builder.alloc_block_id
    let next_block_id := alloc.1
    let cur := cur ++ [.pushReturnAddr next_block_id]
    let arms := compat.map fun o => o.map fun f => (⟨f, 0⟩ : BlockId)
    let builder := alloc.2.push st.block_id cur (.jumpTable arms none te)
    let cur2 : List LirInstr :=
      if needs_save then [.pop (get_save_reg_list to_save ra)] else []
    { block_id := next_block_id,
      cur := cur2 ++ emit_copy_from_returns returns ra,
      builder := builder }
  else
    let alloc := st.builder.alloc_block_id
    let continued_block_idx := alloc.1
    let cur := cur ++ [.pushReturnAddr continued_block_idx]
    let armsBuilder := mk_trampoline_arms singleTick continued_block_idx compat alloc.2
    let builder := armsBuilder.2.push st.block_id cur
      (.jumpTable armsBuilder.1 none te)
    let cur2 : List LirInstr :=
      if needs_save then [.pop (get_save_reg_list to_save ra)] else []
    { block_id := continued_block_idx,
      cur := cur2 ++ emit_copy_from_returns returns ra,
      builder := builder }

end Wasmcraft

namespace Wasmcraft

/-- C3: at a direct `Call` site the caller-save set is exactly
`live_out_body(block, instr_idx)` minus the call's return variables, and
the `Push` of that set is emitted if and only if the call graph reports
the callee may transitively call the current function; the matching
`Pop` lists the same registers in the same order.  The theorem gives the
exact emitted shape in all four cases (`may_call` × `is_single_tick`):
the save list is always `get_save_reg_list (live_out \ returns)`, the
`Push`/`Pop` pair appears exactly when `may_call`, and the `Pop` (in the
same block for a single-tick callee, at the head of the continuation
block for a multi-tick callee) uses the identical register list. -/
theorem call_saves_live_out_minus_returns
    (f : Nat) (params returns liveOut : List TypedSsaVar)
    (mayCall : Nat → Nat → Bool) (singleTick : Nat → Bool) (ra : RA)
    (st : EmitSt) :
    (singleTick f = true →
      lower_call f params returns liveOut mayCall singleTick ra st =
        { st with cur := st.cur ++ emit_copy_to_params params ra
            ++ (if mayCall f st.block_id.func then
                  [.push (get_save_reg_list (to_save_list liveOut returns) ra)]
                else [])
            ++ [.call f]
            ++ (if mayCall f st.block_id.func then
                  [.pop (get_save_reg_list (to_save_list liveOut returns) ra)]
                else [])
            ++ emit_copy_from_returns returns ra })
    ∧ (singleTick f = false →
      lower_call f params returns liveOut mayCall singleTick ra st =
        { block_id := st.builder.alloc_block_id.1,
          cur := (if mayCall f st.block_id.func then
                    [.pop (get_save_reg_list (to_save_list liveOut returns) ra)]
                  else [])
            ++ emit_copy_from_returns returns ra,
          builder := st.builder.alloc_block_id.2.push st.block_id
            (st.cur ++ emit_copy_to_params params ra
              ++ (if mayCall f st.block_id.func then
                    [.push (get_save_reg_list (to_save_list liveOut returns) ra)]
                  else [])
              ++ [.pushReturnAddr st.builder.alloc_block_id.1])
            (.jump ⟨⟨f, 0⟩, true⟩) }) := by
  constructor
  · intro hst
    by_cases hm : mayCall f st.block_id.func = true
    · simp [lower_call, hst, hm]
    · simp at hm
      simp [lower_call, hst, hm]
  · intro hst
    by_cases hm : mayCall f st.block_id.func = true
    · simp [lower_call, hst, hm]
    · simp at hm
      simp [lower_call, hst, hm]

/-- Witness for C3: the theorem applied at a concrete call site — a
recursive single-tick callee with two live-out variables, one of which
is the return value. -/
theorem call_saves_live_out_minus_returns_witness :
    (fun _ => true : Nat → Bool) 1 = true
    ∧ lower_call 1 [] [⟨2, .i32⟩] [⟨2, .i32⟩, ⟨3, .i64⟩]
        (fun _ _ => true) (fun _ => true) (NoopRegAlloc.ra 0)
        ⟨⟨0, 0⟩, [], ⟨0, [⟨0, 0⟩], []⟩⟩ =
      { block_id := ⟨0, 0⟩,
        cur := [.push [Register.work 0 3 .lo, Register.work 0 3 .hi],
                .call 1,
                .pop [Register.work 0 3 .lo, Register.work 0 3 .hi],
                .assign (Register.work 0 2 .lo) (Register.return_lo 0)],
        builder := ⟨0, [⟨0, 0⟩], []⟩ } := by
  refine ⟨rfl, ?_⟩
  have h := (call_saves_live_out_minus_returns 1 [] [⟨2, .i32⟩]
    [⟨2, .i32⟩, ⟨3, .i64⟩] (fun _ _ => true) (fun _ => true)
    (NoopRegAlloc.ra 0) ⟨⟨0, 0⟩, [], ⟨0, [⟨0, 0⟩], []⟩⟩).1 rfl
  rw [h]
  decide

end Wasmcraft

namespace Wasmcraft

/-- C10: a `CallIndirect` whose table has no compatible callee (every
slot empty or type-incompatible) takes the all-single-tick path: a plain
`CallIndirect` whose table is `None` in every slot, no block allocation
(the builder is untouched), and no caller-save `Push`/`Pop`. -/
theorem call_indirect_no_compatible_callee
    (funcs : Nat → FuncSig) (tableElems : List (Option Nat))
    (table_entry : TypedSsaVar) (params returns liveOut : List TypedSsaVar)
    (curFunc : Nat) (mayCall : Nat → Nat → Bool) (singleTick : Nat → Bool)
    (ra : RA) (st : EmitSt)
    (h : (get_compatible_functions funcs tableElems params returns).all
      Option.isNone = true) :
    lower_call_indirect funcs tableElems table_entry params returns liveOut
        curFunc mayCall singleTick ra st =
      { st with cur := st.cur ++ emit_copy_to_params params ra
          ++ [.callIndirect (get_compatible_functions funcs tableElems params returns)
                (ra.get table_entry.id)]
          ++ emit_copy_from_returns returns ra } := by
  have hfm : (get_compatible_functions funcs tableElems params returns).filterMap id
      = [] := by
    rw [List.filterMap_eq_nil_iff]
    intro a ha
    have := List.all_eq_true.mp h a ha
    exact Option.isNone_iff_eq_none.mp this
  simp [lower_call_indirect, hfm]

/-- Witness for C10: a two-slot table — one empty slot, one slot whose
function's signature does not match the call — lowers to a plain
`CallIndirect` over `[none, none]` with no save pair and no new block. -/
theorem call_indirect_no_compatible_callee_witness :
    (get_compatible_functions (fun _ => ⟨[.i32], []⟩) [none, some 0] [] []).all
      Option.isNone = true
    ∧ lower_call_indirect (fun _ => ⟨[.i32], []⟩) [none, some 0] ⟨7, .i32⟩
        [] [] [⟨4, .i32⟩] 0 (fun _ _ => true) (fun _ => false)
        (NoopRegAlloc.ra 0) ⟨⟨0, 0⟩, [], ⟨0, [⟨0, 0⟩], []⟩⟩ =
      { block_id := ⟨0, 0⟩,
        cur := [.callIndirect [none, none] (Register.work 0 7 .lo)],
        builder := ⟨0, [⟨0, 0⟩], []⟩ } := by
  refine ⟨by decide, ?_⟩
  rw [call_indirect_no_compatible_callee (fun _ => ⟨[.i32], []⟩) [none, some 0]
    ⟨7, .i32⟩ [] [] [⟨4, .i32⟩] 0 (fun _ _ => true) (fun _ => false)
    (NoopRegAlloc.ra 0) ⟨⟨0, 0⟩, [], ⟨0, [⟨0, 0⟩], []⟩⟩ (by decide)]
  decide

end Wasmcraft


namespace Wasmcraft

/-- If some index in the scanned window is free, the scan returns a free
index. -/
lemma smallestFreeFrom_spec (used : List BlockId) :
    ∀ (fuel i : Nat),
      (∃ j, i ≤ j ∧ j < i + fuel ∧ (used.all fun id => id.block ≠ j) = true) →
      (used.all fun id => id.block ≠ smallestFreeFrom used fuel i) = true := by
  intro fuel
  induction fuel with
  | zero =>
      rintro i ⟨j, hij, hlt, _⟩
      omega
  | succ n ih =>
      rintro i ⟨j, hij, hlt, hfree⟩
      by_cases h : (used.all fun id => id.block ≠ i) = true
      · rw [smallestFreeFrom, if_pos h]
        exact h
      · rw [smallestFreeFrom, if_neg h]
        have hji : j ≠ i := by
          rintro rfl
          exact h hfree
        exact ih (i + 1) ⟨j, by omega, by omega, hfree⟩

/-- Pigeonhole: some block index in `0..used.length` is unused. -/
lemma exists_free_block (used : List BlockId) :
    ∃ j, j ≤ used.length ∧ (used.all fun id => id.block ≠ j) = true := by
  by_contra hc
  push_neg at hc
  have hsub : Finset.range (used.length + 1) ⊆ (used.map BlockId.block).toFinset := by
    intro j hj
    have hj' : j ≤ used.length := by
      have := Finset.mem_range.mp hj
      omega
    have h1 := hc j hj'
    have hex : ∃ id ∈ used, id.block = j := by
      by_contra hno
      push_neg at hno
      apply h1
      rw [List.all_eq_true]
      intro id hid
      simp [hno id hid]
    obtain ⟨id, hid, hblk⟩ := hex
    rw [List.mem_toFinset, List.mem_map]
    exact ⟨id, hid, hblk⟩
  have h1 : used.length + 1 ≤ (used.map BlockId.block).toFinset.card := by
    have := Finset.card_le_card hsub
    simpa using this
  have h2 : (used.map BlockId.block).toFinset.card ≤ used.length := by
    have := (used.map BlockId.block).toFinset_card_le
    simpa using this
  omega

/-- `alloc_block_id` hands out a block id not currently used. -/
lemma alloc_block_id_fresh (b : LirFuncBuilder) :
    b.alloc_block_id.1 ∉ b.used_ids := by
  obtain ⟨j, hj, hfree⟩ := exists_free_block b.used_ids
  have hspec := smallestFreeFrom_spec b.used_ids (b.used_ids.length + 1) 0
    ⟨j, Nat.zero_le _, by omega, hfree⟩
  intro hmem
  have h2 := List.all_eq_true.mp hspec _ hmem
  simp [LirFuncBuilder.alloc_block_id] at h2

/-- The used-id set after an allocation. -/
lemma alloc_block_id_used (b : LirFuncBuilder) :
    b.alloc_block_id.2.used_ids = b.used_ids ++ [b.alloc_block_id.1] := rfl

end Wasmcraft

namespace Wasmcraft

/-- Shape of the arm list and builder produced by the mixed-case
trampoline construction: arm count preserved; empty slots stay empty;
multi-tick arms point at the callee entry; every single-tick arm points
at a trampoline block — with body `Call{f}; PopReturnAddr` and
terminator `Jump(k, cmd_check=false)` — whose id was not in use when
the construction started. -/
lemma mk_trampoline_arms_spec (singleTick : Nat → Bool) (k : BlockId) :
    ∀ (compat : List (Option Nat)) (b : LirFuncBuilder),
      (mk_trampoline_arms singleTick k compat b).1.length = compat.length
      ∧ (∃ ext, (mk_trampoline_arms singleTick k compat b).2.used_ids
          = b.used_ids ++ ext)
      ∧ (∃ nb, (mk_trampoline_arms singleTick k compat b).2.body = b.body ++ nb)
      ∧ (∀ (n : Nat), compat[n]? = some none
          → (mk_trampoline_arms singleTick k compat b).1[n]? = some none)
      ∧ (∀ (n f : Nat), compat[n]? = some (some f) → singleTick f = false
          → (mk_trampoline_arms singleTick k compat b).1[n]?
              = some (some (⟨f, 0⟩ : BlockId)))
      ∧ (∀ (n f : Nat), compat[n]? = some (some f) → singleTick f = true
          → ∃ tid : BlockId, (mk_trampoline_arms singleTick k compat b).1[n]?
              = some (some tid)
            ∧ tid ∉ b.used_ids
            ∧ (tid, (⟨[.call f, .popReturnAddr], .jump ⟨k, false⟩⟩ : LirBasicBlock))
                ∈ (mk_trampoline_arms singleTick k compat b).2.body) := by
  intro compat
  induction compat with
  | nil =>
      intro b
      refine ⟨rfl, ⟨[], by simp [mk_trampoline_arms]⟩,
        ⟨[], by simp [mk_trampoline_arms]⟩, ?_, ?_, ?_⟩ <;>
        intro n <;> simp [mk_trampoline_arms]
  | cons o rest ih =>
      intro b
      cases o with
      | none =>
          obtain ⟨hlen, ⟨ext, hext⟩, ⟨nb, hnb⟩, hnone, hmulti, hsingle⟩ := ih b
          refine ⟨by simpa [mk_trampoline_arms] using hlen,
            ⟨ext, by simpa [mk_trampoline_arms] using hext⟩,
            ⟨nb, by simpa [mk_trampoline_arms] using hnb⟩, ?_, ?_, ?_⟩
          · rintro (_ | n) h
            · simp [mk_trampoline_arms]
            · simpa [mk_trampoline_arms] using hnone n (by simpa using h)
          · rintro (_ | n) f h hf
            · simp at h
            · simpa [mk_trampoline_arms] using hmulti n f (by simpa using h) hf
          · rintro (_ | n) f h hf
            · simp at h
            · obtain ⟨tid, h1, h2, h3⟩ := hsingle n f (by simpa using h) hf
              exact ⟨tid, by simpa [mk_trampoline_arms] using h1, h2,
                by simpa [mk_trampoline_arms] using h3⟩
      | some f₀ =>
          by_cases hf₀ : singleTick f₀ = true
          · have harm : mk_trampoline_arms singleTick k (some f₀ :: rest) b
                = (some b.alloc_block_id.1
                    :: (mk_trampoline_arms singleTick k rest
                        (b.alloc_block_id.2.push b.alloc_block_id.1
                          [.call f₀, .popReturnAddr] (.jump ⟨k, false⟩))).1,
                  (mk_trampoline_arms singleTick k rest
                      (b.alloc_block_id.2.push b.alloc_block_id.1
                        [.call f₀, .popReturnAddr] (.jump ⟨k, false⟩))).2) := by
              simp [mk_trampoline_arms, hf₀]
            obtain ⟨hlen, ⟨ext, hext⟩, ⟨nb, hnb⟩, hnone, hmulti, hsingle⟩ :=
              ih (b.alloc_block_id.2.push b.alloc_block_id.1
                [.call f₀, .popReturnAddr] (.jump ⟨k, false⟩))
            have hused₂ : (b.alloc_block_id.2.push b.alloc_block_id.1
                [.call f₀, .popReturnAddr] (.jump ⟨k, false⟩)).used_ids
                = b.used_ids ++ [b.alloc_block_id.1] := rfl
            have hbody₂ : (b.alloc_block_id.2.push b.alloc_block_id.1
                [.call f₀, .popReturnAddr] (.jump ⟨k, false⟩)).body
                = b.body
                  ++ [(b.alloc_block_id.1,
                      (⟨[.call f₀, .popReturnAddr], .jump ⟨k, false⟩⟩ : LirBasicBlock))] := rfl
            rw [harm]
            refine ⟨by simpa using hlen,
              ⟨b.alloc_block_id.1 :: ext, by
                rw [hused₂] at hext
                simpa using hext⟩,
              ⟨(b.alloc_block_id.1,
                  (⟨[.call f₀, .popReturnAddr], .jump ⟨k, false⟩⟩ : LirBasicBlock)) :: nb, by
                rw [hbody₂] at hnb
                simpa using hnb⟩, ?_, ?_, ?_⟩
            · rintro (_ | n) h
              · simp at h
              · simpa using hnone n (by simpa using h)
            · rintro (_ | n) f h hf
              · simp at h
                subst h
                simp [hf₀] at hf
              · simpa using hmulti n f (by simpa using h) hf
            · rintro (_ | n) f h hf
              · simp at h
                subst h
                refine ⟨b.alloc_block_id.1, by simp, alloc_block_id_fresh b, ?_⟩
                rw [hnb, hbody₂]
                simp
              · obtain ⟨tid, h1, h2, h3⟩ := hsingle n f (by simpa using h) hf
                refine ⟨tid, by simpa using h1, ?_, by simpa using h3⟩
                rw [hused₂] at h2
                intro hmem
                exact h2 (List.mem_append_left _ hmem)
          · have hf₀' : singleTick f₀ = false := by
              simpa using hf₀
            obtain ⟨hlen, ⟨ext, hext⟩, ⟨nb, hnb⟩, hnone, hmulti, hsingle⟩ := ih b
            refine ⟨by simpa [mk_trampoline_arms, hf₀'] using hlen,
              ⟨ext, by simpa [mk_trampoline_arms, hf₀'] using hext⟩,
              ⟨nb, by simpa [mk_trampoline_arms, hf₀'] using hnb⟩, ?_, ?_, ?_⟩
            · rintro (_ | n) h
              · simp at h
              · simpa [mk_trampoline_arms, hf₀'] using hnone n (by simpa using h)
            · rintro (_ | n) f h hf
              · simp at h
                subst h
                simp [mk_trampoline_arms, hf₀']
              · simpa [mk_trampoline_arms, hf₀'] using hmulti n f (by simpa using h) hf
            · rintro (_ | n) f h hf
              · simp at h
                subst h
                simp [hf₀'] at hf
              · obtain ⟨tid, h1, h2, h3⟩ := hsingle n f (by simpa using h) hf
                exact ⟨tid, by simpa [mk_trampoline_arms, hf₀'] using h1, h2,
                  by simpa [mk_trampoline_arms, hf₀'] using h3⟩

end Wasmcraft

namespace Wasmcraft

/-- C4: dispatch of `CallIndirect` by tickness of the compatible callees.
If all compatible callees are single-tick, a single
`CallIndirect{table, table_entry}` is emitted into the current block and
no block is allocated; if all are multi-tick, a fresh continuation block
`K` is allocated, `PushReturnAddr(K)` is emitted, and the block closes
with a `JumpTable` whose arms are the callees' entry blocks; in the
mixed case each single-tick arm targets a fresh trampoline block with
body `Call{f}; PopReturnAddr` and terminator `Jump(K, cmd_check=false)`,
while multi-tick arms target the callee's entry block directly. -/
theorem call_indirect_tick_dispatch
    (funcs : Nat → FuncSig) (tableElems : List (Option Nat))
    (table_entry : TypedSsaVar) (params returns liveOut : List TypedSsaVar)
    (curFunc : Nat) (mayCall : Nat → Nat → Bool) (singleTick : Nat → Bool)
    (ra : RA) (st : EmitSt) :
    (((get_compatible_functions funcs tableElems params returns).filterMap id).all
        (fun f => singleTick f) = true →
      lower_call_indirect funcs tableElems table_entry params returns liveOut
          curFunc mayCall singleTick ra st =
        { st with cur := st.cur ++ emit_copy_to_params params ra
            ++ (if ((get_compatible_functions funcs tableElems params returns).filterMap
                    id).any (fun f => f == curFunc || mayCall f curFunc) then
                  [.push (get_save_reg_list (to_save_list liveOut returns) ra)]
                else [])
            ++ [.callIndirect (get_compatible_functions funcs tableElems params returns)
                  (ra.get table_entry.id)]
            ++ (if ((get_compatible_functions funcs tableElems params returns).filterMap
                    id).any (fun f => f == curFunc || mayCall f curFunc) then
                  [.pop (get_save_reg_list (to_save_list liveOut returns) ra)]
                else [])
            ++ emit_copy_from_returns returns ra })
    ∧ (((get_compatible_functions funcs tableElems params returns).filterMap id).all
          (fun f => singleTick f) = false →
       ((get_compatible_functions funcs tableElems params returns).filterMap id).all
          (fun f => !singleTick f) = true →
      lower_call_indirect funcs tableElems table_entry params returns liveOut
          curFunc mayCall singleTick ra st =
        { block_id := st.builder.alloc_block_id.1,
          cur := (if ((get_compatible_functions funcs tableElems params returns).filterMap
                    id).any (fun f => f == curFunc || mayCall f curFunc) then
                    [.pop (get_save_reg_list (to_save_list liveOut returns) ra)]
                  else [])
            ++ emit_copy_from_returns returns ra,
          builder := st.builder.alloc_block_id.2.push st.block_id
            (st.cur ++ emit_copy_to_params params ra
              ++ (if ((get_compatible_functions funcs tableElems params returns).filterMap
                      id).any (fun f => f == curFunc || mayCall f curFunc) then
                    [.push (get_save_reg_list (to_save_list liveOut returns) ra)]
                  else [])
              ++ [.pushReturnAddr st.builder.alloc_block_id.1])
            (.jumpTable ((get_compatible_functions funcs tableElems params returns).map
                (fun o => o.map fun f => (⟨f, 0⟩ : BlockId)))
              none (ra.get table_entry.id)) }
      ∧ st.builder.alloc_block_id.1 ∉ st.builder.used_ids)
    ∧ (((get_compatible_functions funcs tableElems params returns).filterMap id).all
          (fun f => singleTick f) = false →
       ((get_compatible_functions funcs tableElems params returns).filterMap id).all
          (fun f => !singleTick f) = false →
      lower_call_indirect funcs tableElems table_entry params returns liveOut
          curFunc mayCall singleTick ra st =
        { block_id := st.builder.alloc_block_id.1,
          cur := (if ((get_compatible_functions funcs tableElems params returns).filterMap
                    id).any (fun f => f == curFunc || mayCall f curFunc) then
                    [.pop (get_save_reg_list (to_save_list liveOut returns) ra)]
                  else [])
            ++ emit_copy_from_returns returns ra,
          builder := (mk_trampoline_arms singleTick st.builder.alloc_block_id.1
              (get_compatible_functions funcs tableElems params returns)
              st.builder.alloc_block_id.2).2.push st.block_id
            (st.cur ++ emit_copy_to_params params ra
              ++ (if ((get_compatible_functions funcs tableElems params returns).filterMap
                      id).any (fun f => f == curFunc || mayCall f curFunc) then
                    [.push (get_save_reg_list (to_save_list liveOut returns) ra)]
                  else [])
              ++ [.pushReturnAddr st.builder.alloc_block_id.1])
            (.jumpTable (mk_trampoline_arms singleTick st.builder.alloc_block_id.1
                (get_compatible_functions funcs tableElems params returns)
                st.builder.alloc_block_id.2).1
              none (ra.get table_entry.id)) }
      ∧ st.builder.alloc_block_id.1 ∉ st.builder.used_ids
      ∧ (∀ (n : Nat),
          (get_compatible_functions funcs tableElems params returns)[n]? = some none →
          (mk_trampoline_arms singleTick st.builder.alloc_block_id.1
            (get_compatible_functions funcs tableElems params returns)
            st.builder.alloc_block_id.2).1[n]? = some none)
      ∧ (∀ (n f : Nat),
          (get_compatible_functions funcs tableElems params returns)[n]? = some (some f) →
          singleTick f = false →
          (mk_trampoline_arms singleTick st.builder.alloc_block_id.1
            (get_compatible_functions funcs tableElems params returns)
            st.builder.alloc_block_id.2).1[n]? = some (some (⟨f, 0⟩ : BlockId)))
      ∧ (∀ (n f : Nat),
          (get_compatible_functions funcs tableElems params returns)[n]? = some (some f) →
          singleTick f = true →
          ∃ tid : BlockId,
            (mk_trampoline_arms singleTick st.builder.alloc_block_id.1
              (get_compatible_functions funcs tableElems params returns)
              st.builder.alloc_block_id.2).1[n]? = some (some tid)
            ∧ tid ∉ st.builder.used_ids
            ∧ tid ≠ st.builder.alloc_block_id.1
            ∧ (tid, (⟨[.call f, .popReturnAddr],
                  .jump ⟨st.builder.alloc_block_id.1, false⟩⟩ : LirBasicBlock))
                ∈ (mk_trampoline_arms singleTick st.builder.alloc_block_id.1
                    (get_compatible_functions funcs tableElems params returns)
                    st.builder.alloc_block_id.2).2.body)) := by
  refine ⟨?_, ?_, ?_⟩
  · intro hs
    by_cases hn : ((get_compatible_functions funcs tableElems params returns).filterMap
        id).any (fun f => f == curFunc || mayCall f curFunc) = true
    · simp [lower_call_indirect, hs, hn, -List.any_eq_true, -List.all_eq_true]
    · rw [Bool.not_eq_true] at hn
      simp [lower_call_indirect, hs, hn, -List.any_eq_true, -List.all_eq_true]
  · intro hs hm
    refine ⟨?_, alloc_block_id_fresh st.builder⟩
    by_cases hn : ((get_compatible_functions funcs tableElems params returns).filterMap
        id).any (fun f => f == curFunc || mayCall f curFunc) = true
    · simp [lower_call_indirect, hs, hm, hn, -List.any_eq_true, -List.all_eq_true]
    · rw [Bool.not_eq_true] at hn
      simp [lower_call_indirect, hs, hm, hn, -List.any_eq_true, -List.all_eq_true]
  · intro hs hm
    obtain ⟨hlen, hext, hnb, hnone, hmulti, hsingle⟩ :=
      mk_trampoline_arms_spec singleTick st.builder.alloc_block_id.1
        (get_compatible_functions funcs tableElems params returns)
        st.builder.alloc_block_id.2
    refine ⟨?_, alloc_block_id_fresh st.builder, hnone, hmulti, ?_⟩
    · by_cases hn : ((get_compatible_functions funcs tableElems params returns).filterMap
          id).any (fun f => f == curFunc || mayCall f curFunc) = true
      · simp [lower_call_indirect, hs, hm, hn, -List.any_eq_true, -List.all_eq_true]
      · rw [Bool.not_eq_true] at hn
        simp [lower_call_indirect, hs, hm, hn, -List.any_eq_true, -List.all_eq_true]
    intro n f hn hf
    obtain ⟨tid, h1, h2, h3⟩ := hsingle n f hn hf
    rw [alloc_block_id_used] at h2
    refine ⟨tid, h1, ?_, ?_, h3⟩
    · intro hmem
      exact h2 (List.mem_append_left _ hmem)
    · intro heq
      exact h2 (List.mem_append_right _ (by simp [heq]))

end Wasmcraft

namespace Wasmcraft

/-- Witness for C4: a two-slot table whose first callee is single-tick
and second is multi-tick takes the mixed path — a trampoline block
`⟨9,2⟩` (body `Call 0; PopReturnAddr`, jump to the continuation `⟨9,1⟩`
without cmd_check) for arm 0 and the direct entry `⟨1,0⟩` for arm 1. -/
theorem call_indirect_tick_dispatch_witness :
    ((get_compatible_functions (fun _ => ⟨[], []⟩) [some 0, some 1] [] []).filterMap
        id).all (fun f => (fun g => g == 0) f) = false
    ∧ ((get_compatible_functions (fun _ => ⟨[], []⟩) [some 0, some 1] [] []).filterMap
        id).all (fun f => !(fun g => g == 0) f) = false
    ∧ lower_call_indirect (fun _ => ⟨[], []⟩) [some 0, some 1] ⟨5, .i32⟩ [] [] []
        9 (fun _ _ => false) (fun g => g == 0) (NoopRegAlloc.ra 9)
        ⟨⟨9, 0⟩, [], ⟨9, [⟨9, 0⟩], []⟩⟩ =
      { block_id := ⟨9, 1⟩,
        cur := [],
        builder := ⟨9, [⟨9, 0⟩, ⟨9, 1⟩, ⟨9, 2⟩],
          [(⟨9, 2⟩, ⟨[.call 0, .popReturnAddr], .jump ⟨⟨9, 1⟩, false⟩⟩),
           (⟨9, 0⟩, ⟨[.pushReturnAddr ⟨9, 1⟩],
              .jumpTable [some ⟨9, 2⟩, some ⟨1, 0⟩] none (Register.work 9 5 .lo)⟩)]⟩ } := by
  refine ⟨by decide, by decide, ?_⟩
  have h := (call_indirect_tick_dispatch (fun _ => ⟨[], []⟩) [some 0, some 1]
    ⟨5, .i32⟩ [] [] [] 9 (fun _ _ => false) (fun g => g == 0) (NoopRegAlloc.ra 9)
    ⟨⟨9, 0⟩, [], ⟨9, [⟨9, 0⟩], []⟩⟩).2.2 (by decide) (by decide)
  rw [h.1]
  decide

end Wasmcraft

namespace Wasmcraft

/-- `JumpTarget { label, params }` from `ssa/mod.rs`. -/
structure SsaJumpTarget where
  label : BlockId
  params : List TypedSsaVar
deriving DecidableEq, Repr

/-- `SsaTerminator` from `ssa/mod.rs` (the variants `lower_block`
handles). -/
inductive SsaTerminator where
  | unreachable
  | scheduleJump (target : SsaJumpTarget) (delay : Nat)
  | jump (target : SsaJumpTarget)
  | branchIf (cond : TypedSsaVar) (true_target false_target : SsaJumpTarget)
  | branchTable (cond : TypedSsaVar) (default : SsaJumpTarget)
      (arms : List SsaJumpTarget)
  | ret (vars : List TypedSsaVar)
deriving DecidableEq, Repr

/-- The return-value moves of the `Return` terminator
(`lower_block` lines 1124–1140). -/
def emit_return_moves (vars : List TypedSsaVar) (ra : RA) : List LirInstr :=
  vars.enum.flatMap fun q =>
    match q.2.ty with
    | .i32 | .f32 => [.assign (Register.return_lo q.1) (ra.get q.2.id)]
    | .i64 | .f64 =>
        [.assign (DoubleRegister.return_reg q.1).lo (ra.getDouble q.2.id).lo,
         .assign (DoubleRegister.return_reg q.1).hi (ra.getDouble q.2.id).hi]

/-- Lowering of an SSA terminator (`lower_block` lines 1021–1148).
`blockParams b` models `parent_func.get(b).params`; `dominates` is
`dom_tree.dominates`; `singleTickSelf` is
`call_graph.is_single_tick(parent_func.func_id())`; `tempCounter` is
the allocator's next temp index (`ra.get_temp` returns
`Register::temp_lo(temp)` and increments).  Returns the finished block
body and its terminator. -/
def lower_term (blockParams : BlockId → List TypedSsaVar)
    (dominates : BlockId → BlockId → Bool) (singleTickSelf : Bool)
    (ra : RA) (tempCounter : Nat) (ssa_block_id : BlockId)
    (cur : List LirInstr) : SsaTerminator → List LirInstr × LirTerminator
  | .unreachable => (cur, .ret)
  | .scheduleJump t delay => (cur, .scheduleJump t.label delay)
  | .jump t =>
      (cur ++ emit_copy ra t.params (blockParams t.label) [],
       .jump ⟨t.label, dominates t.label ssa_block_id⟩)
  | .branchIf cond tt ft =>
      let cond2 := ra.get cond.id
      let condReg := Register.temp_lo tempCounter
      let true_conds : List Cond := [.eqZero Register.cond_taken, .neqZero condReg]
      let false_conds : List Cond := [.eqZero Register.cond_taken, .eqZero condReg]
      (cur ++ [.assign condReg cond2, .set Register.cond_taken 0]
         ++ emit_copy ra tt.params (blockParams tt.label) true_conds
         ++ emit_copy ra ft.params (blockParams ft.label) false_conds,
       .jumpIf ⟨tt.label, dominates tt.label ssa_block_id⟩
         ⟨ft.label, dominates ft.label ssa_block_id⟩ condReg)
  | .branchTable cond default arms =>
      if arms.isEmpty then
        (cur ++ emit_copy ra default.params (blockParams default.label) [],
         .jump ⟨default.label, false⟩)
      else
        let cond0 := ra.get cond.id
        let needs_new_cond := ((arms.flatMap fun arm => blockParams arm.label)
          ++ blockParams default.label).any fun p => cond0 == ra.get p.id
        let condReg := if needs_new_cond then Register.temp_lo tempCounter else cond0
        let cur := if needs_new_cond
          then cur ++ [.assign (Register.temp_lo tempCounter) cond0] else cur
        let default_conds : List Cond := [.eqZero Register.cond_taken,
          .notMatches condReg 0 ((arms.length : Int) - 1)]
        (cur ++ [.set Register.cond_taken 0]
           ++ emit_copy ra default.params (blockParams default.label) default_conds
           ++ (arms.enum.flatMap fun q =>
                emit_copy ra q.2.params (blockParams q.2.label)
                  [.eqZero Register.cond_taken, .eqConst condReg (q.1 : Int)]),
         .jumpTable (arms.map fun arm => some arm.label) (some default.label) condReg)
  | .ret vars =>
      (cur ++ emit_return_moves vars ra,
       if singleTickSelf then .ret else .retToSaved)

/-- Every block pushed by the trampoline construction (beyond those the
builder already held) ends in `Jump(k, cmd_check=false)`. -/
lemma mk_trampoline_arms_block_terms (singleTick : Nat → Bool) (k : BlockId) :
    ∀ (compat : List (Option Nat)) (b : LirFuncBuilder),
      ∀ q ∈ (mk_trampoline_arms singleTick k compat b).2.body,
        q ∈ b.body ∨ q.2.term = .jump ⟨k, false⟩ := by
  intro compat
  induction compat with
  | nil =>
      intro b q hq
      exact Or.inl (by simpa [mk_trampoline_arms] using hq)
  | cons o rest ih =>
      intro b q hq
      cases o with
      | none => exact ih b q (by simpa [mk_trampoline_arms] using hq)
      | some f =>
          by_cases hf : singleTick f = true
          · have hq' : q ∈ (mk_trampoline_arms singleTick k rest
                (b.alloc_block_id.2.push b.alloc_block_id.1
                  [.call f, .popReturnAddr] (.jump ⟨k, false⟩))).2.body := by
              simpa [mk_trampoline_arms, hf] using hq
            rcases ih _ q hq' with h | h
            · have h3 : q ∈ b.body ∨ q = (b.alloc_block_id.1,
                  (⟨[.call f, .popReturnAddr], .jump ⟨k, false⟩⟩ : LirBasicBlock)) := by
                simpa [LirFuncBuilder.push] using h
              rcases h3 with h2 | h2
              · exact Or.inl h2
              · right
                rw [h2]
            · exact Or.inr h
          · have hf' : singleTick f = false := by
              simpa using hf
            exact ih b q (by simpa [mk_trampoline_arms, hf'] using hq)

end Wasmcraft

namespace Wasmcraft

/-- Allocating a block id does not change the pushed blocks. -/
lemma alloc_block_id_body (b : LirFuncBuilder) :
    b.alloc_block_id.2.body = b.body := rfl

/-- Counterexample to C2 as stated: in a one-block function (where the
dominator relation is everywhere true — every block dominates itself), a
`BranchTable` terminator with no arms jumping back to the block itself
is emitted with `cmd_check = false`, although the target dominates the
source. -/
theorem back_edge_marking_counterexample :
    (lower_term (fun _ => []) (fun _ _ => true) true (NoopRegAlloc.ra 0) 1000
        ⟨0, 0⟩ [] (.branchTable ⟨1, .i32⟩ ⟨⟨0, 0⟩, []⟩ [])).2
      = .jump ⟨⟨0, 0⟩, false⟩
    ∧ (fun _ _ => true : BlockId → BlockId → Bool) ⟨0, 0⟩ ⟨0, 0⟩ = true := by
  exact ⟨by decide, rfl⟩

/-- C2 amended: `Jump` and `BranchIf` terminators mark their targets
with `cmd_check = dominates(target, source)`; but a `BranchTable` with
no arms emits its default jump with `cmd_check = false` regardless of
dominance (a non-empty `BranchTable` emits a `JumpTable`, which carries
no `cmd_check` bits at all); the jump to a multi-tick callee's entry
emitted by a direct `Call` always carries `cmd_check = true`; and the
trampoline blocks of a mixed indirect call jump to the continuation with
`cmd_check = false`. -/
theorem back_edge_marking_amended
    (blockParams : BlockId → List TypedSsaVar)
    (dominates : BlockId → BlockId → Bool) (singleTickSelf : Bool)
    (ra : RA) (tempCounter : Nat) (src : BlockId) (cur : List LirInstr) :
    (∀ t, (lower_term blockParams dominates singleTickSelf ra tempCounter src cur
        (.jump t)).2 = .jump ⟨t.label, dominates t.label src⟩)
    ∧ (∀ cond tt ft,
        (lower_term blockParams dominates singleTickSelf ra tempCounter src cur
          (.branchIf cond tt ft)).2
        = .jumpIf ⟨tt.label, dominates tt.label src⟩
            ⟨ft.label, dominates ft.label src⟩ (Register.temp_lo tempCounter))
    ∧ (∀ cond default,
        (lower_term blockParams dominates singleTickSelf ra tempCounter src cur
          (.branchTable cond default [])).2 = .jump ⟨default.label, false⟩)
    ∧ (∀ cond default arms, arms ≠ [] →
        (lower_term blockParams dominates singleTickSelf ra tempCounter src cur
          (.branchTable cond default arms)).2
        = .jumpTable (arms.map fun arm => some arm.label) (some default.label)
            (if ((arms.flatMap fun arm => blockParams arm.label)
                ++ blockParams default.label).any
                  (fun p => ra.get cond.id == ra.get p.id)
              then Register.temp_lo tempCounter else ra.get cond.id))
    ∧ (∀ f params returns liveOut mayCall singleTick st, singleTick f = false →
        (lower_call f params returns liveOut mayCall singleTick ra st).builder.body
        = st.builder.body
          ++ [(st.block_id,
              ⟨st.cur ++ emit_copy_to_params params ra
                ++ (if mayCall f st.block_id.func then
                      [.push (get_save_reg_list (to_save_list liveOut returns) ra)]
                    else [])
                ++ [.pushReturnAddr st.builder.alloc_block_id.1],
               .jump ⟨⟨f, 0⟩, true⟩⟩)])
    ∧ (∀ (k : BlockId) compat b (stck : Nat → Bool),
        ∀ q ∈ (mk_trampoline_arms stck k compat b).2.body,
          q ∈ b.body ∨ q.2.term = .jump ⟨k, false⟩) := by
  refine ⟨fun t => rfl, fun cond tt ft => rfl, fun cond default => rfl, ?_, ?_, ?_⟩
  · intro cond default arms harms
    cases arms with
    | nil => exact absurd rfl harms
    | cons a as => rfl
  · intro f params returns liveOut mayCall singleTick st hf
    by_cases hm : mayCall f st.block_id.func = true
    · simp [lower_call, hf, hm, LirFuncBuilder.push, alloc_block_id_body]
    · rw [Bool.not_eq_true] at hm
      simp [lower_call, hf, hm, LirFuncBuilder.push, alloc_block_id_body]
  · intro k compat b stck q hq
    exact mk_trampoline_arms_block_terms stck k compat b q hq

/-- Witness for C2's amended theorem: a one-arm branch table and a
multi-tick direct call at concrete inputs. -/
theorem back_edge_marking_amended_witness :
    ([(⟨⟨2, 0⟩, []⟩ : SsaJumpTarget)]) ≠ []
    ∧ (lower_term (fun _ => []) (fun a b => a == b) true (NoopRegAlloc.ra 0) 1000
        ⟨0, 0⟩ [] (.branchTable ⟨1, .i32⟩ ⟨⟨3, 0⟩, []⟩ [⟨⟨2, 0⟩, []⟩])).2
      = .jumpTable [some ⟨2, 0⟩] (some ⟨3, 0⟩) (Register.work 0 1 .lo)
    ∧ (fun _ => false : Nat → Bool) 1 = false
    ∧ (lower_call 1 [] [] [] (fun _ _ => false) (fun _ => false)
        (NoopRegAlloc.ra 0) ⟨⟨0, 0⟩, [], ⟨0, [⟨0, 0⟩], []⟩⟩).builder.body
      = [(⟨0, 0⟩, ⟨[.pushReturnAddr ⟨0, 1⟩], .jump ⟨⟨1, 0⟩, true⟩⟩)] := by
  refine ⟨by decide, ?_, rfl, ?_⟩
  · have h := (back_edge_marking_amended (fun _ => []) (fun a b => a == b) true
      (NoopRegAlloc.ra 0) 1000 ⟨0, 0⟩ []).2.2.2.1 ⟨1, .i32⟩ ⟨⟨3, 0⟩, []⟩
      [⟨⟨2, 0⟩, []⟩] (by decide)
    exact h.trans (by decide)
  · have h := (back_edge_marking_amended (fun _ => []) (fun a b => a == b) true
      (NoopRegAlloc.ra 0) 1000 ⟨0, 0⟩ []).2.2.2.2.1 1 [] [] [] (fun _ _ => false)
      (fun _ => false) ⟨⟨0, 0⟩, [], ⟨0, [⟨0, 0⟩], []⟩⟩ rfl
    exact h.trans (by decide)

end Wasmcraft

namespace Wasmcraft

/-- The needs-temp set in the specification's words (§4.7 step 3): the
set of sources that also appear as the destination of some *other*
pair.  Stated only for comparison with the implementation's
`need_tmp`. -/
def spec_needs_temp (ps : List (Register × Register)) : List Register :=
  (ps.enum.filter fun q =>
    ps.enum.any fun q2 => !(q2.1 == q.1) && q.2.1 == q2.2.2).map fun q => q.2.1

/-- Counterexample to C8 as stated: on the chain `a→b, c→a` the
implementation's needs-temp set is `{c}` (sources of pairs whose
destination is read by some pair) while the claimed set — sources that
appear as the destination of some other pair — is `{a}`. -/
theorem need_tmp_counterexample :
    Register.work 0 2 .lo ∈ need_tmp
        [(Register.work 0 0 .lo, Register.work 0 1 .lo),
         (Register.work 0 2 .lo, Register.work 0 0 .lo)]
    ∧ Register.work 0 2 .lo ∉ spec_needs_temp
        [(Register.work 0 0 .lo, Register.work 0 1 .lo),
         (Register.work 0 2 .lo, Register.work 0 0 .lo)]
    ∧ Register.work 0 0 .lo ∈ spec_needs_temp
        [(Register.work 0 0 .lo, Register.work 0 1 .lo),
         (Register.work 0 2 .lo, Register.work 0 0 .lo)]
    ∧ Register.work 0 0 .lo ∉ need_tmp
        [(Register.work 0 0 .lo, Register.work 0 1 .lo),
         (Register.work 0 2 .lo, Register.work 0 0 .lo)] := by
  decide

/-- C8 amended: the needs-temp set is exactly the set of sources of
pairs whose *destination* also appears as the *source* of some pair
(not, as the claim puts it, the sources that appear as a destination of
some other pair); and every pair whose source is outside that set is
emitted as a direct `Assign(dst, src)` in the leading segment of the
emission, before any scratch-mediated move — every instruction after
that segment reads or writes a `Temp` scratch register. -/
theorem need_tmp_amended (ps : List (Register × Register)) :
    (∀ r : Register, r ∈ need_tmp ps
      ↔ ∃ p ∈ ps, p.1 = r ∧ p.2 ∈ ps.map Prod.fst)
    ∧ (∀ p ∈ ps, (need_tmp ps).contains p.1 = false →
        LirInstr.assign p.2 p.1
          ∈ (emit_copy_regs [] ps).take
              ((ps.filter fun q => !(need_tmp ps).contains q.1).length))
    ∧ (∀ i ∈ (emit_copy_regs [] ps).drop
          ((ps.filter fun q => !(need_tmp ps).contains q.1).length),
        ∃ k : Nat, (∃ s, i = LirInstr.assign (Register.temp_lo k) s)
          ∨ (∃ d, i = LirInstr.assign d (Register.temp_lo k))) := by
  refine ⟨?_, ?_, ?_⟩
  · intro r
    simp only [need_tmp, List.mem_map, List.mem_filter, List.any_eq_true,
      beq_iff_eq]
    aesop
  · intro p hp hnc
    have hlen : ((ps.filter fun q => !(need_tmp ps).contains q.1).map
        fun q => wrapConds [] (LirInstr.assign q.2 q.1)).length
        = (ps.filter fun q => !(need_tmp ps).contains q.1).length :=
      List.length_map _ _
    rw [emit_copy_regs, List.append_assoc, ← hlen, List.take_left]
    have hmem : p ∈ ps.filter fun q => !(need_tmp ps).contains q.1 := by
      rw [List.mem_filter]
      exact ⟨hp, by rw [hnc]; rfl⟩
    exact List.mem_map.mpr ⟨p, hmem, rfl⟩
  · intro i hi
    have hlen : ((ps.filter fun q => !(need_tmp ps).contains q.1).map
        fun q => wrapConds [] (LirInstr.assign q.2 q.1)).length
        = (ps.filter fun q => !(need_tmp ps).contains q.1).length :=
      List.length_map _ _
    rw [emit_copy_regs, List.append_assoc, ← hlen, List.drop_left] at hi
    rcases List.mem_append.mp hi with h | h
    · obtain ⟨q, hq, rfl⟩ := List.mem_map.mp h
      exact ⟨q.1, Or.inl ⟨q.2.1, rfl⟩⟩
    · obtain ⟨q, hq, rfl⟩ := List.mem_map.mp h
      exact ⟨q.1, Or.inr ⟨q.2.2, rfl⟩⟩

/-- Witness for C8's amended theorem: on the chain `a→b, c→a` the pair
`a→b` (source `a` outside the needs-temp set `{c}`) appears among the
leading direct assignments. -/
theorem need_tmp_amended_witness :
    ((Register.work 0 0 .lo, Register.work 0 1 .lo)
        ∈ [(Register.work 0 0 .lo, Register.work 0 1 .lo),
           (Register.work 0 2 .lo, Register.work 0 0 .lo)])
    ∧ (need_tmp [(Register.work 0 0 .lo, Register.work 0 1 .lo),
         (Register.work 0 2 .lo, Register.work 0 0 .lo)]).contains
        (Register.work 0 0 .lo) = false
    ∧ LirInstr.assign (Register.work 0 1 .lo) (Register.work 0 0 .lo)
      ∈ (emit_copy_regs []
          [(Register.work 0 0 .lo, Register.work 0 1 .lo),
           (Register.work 0 2 .lo, Register.work 0 0 .lo)]).take
          (([(Register.work 0 0 .lo, Register.work 0 1 .lo),
             (Register.work 0 2 .lo, Register.work 0 0 .lo)].filter fun q =>
              !(need_tmp [(Register.work 0 0 .lo, Register.work 0 1 .lo),
                (Register.work 0 2 .lo, Register.work 0 0 .lo)]).contains q.1).length) := by
  refine ⟨by decide, by decide, ?_⟩
  exact (need_tmp_amended
    [(Register.work 0 0 .lo, Register.work 0 1 .lo),
     (Register.work 0 2 .lo, Register.work 0 0 .lo)]).2.1
    (Register.work 0 0 .lo, Register.work 0 1 .lo) (by decide) (by decide)

end Wasmcraft

namespace Wasmcraft

/-- Executing a concatenation splits into sequential execution. -/
lemma execList_append (σ : RegState) (l₁ l₂ : List LirInstr) :
    execList σ (l₁ ++ l₂) = execList (execList σ l₁) l₂ := by
  simp [execList, List.foldl_append]

/-- Reading a non-constant register just reads the state. -/
lemma regValue_of_get_const_none (σ : RegState) (r : Register)
    (h : r.get_const = none) : regValue σ r = σ r := by
  cases r <;> simp_all [regValue, Register.get_const]

/-- A `noScratch` register is not a `Temp`. -/
lemma noScratch_ne_temp (r : Register) (h : r.noScratch = true)
    (k : Nat) (hh : Half) : r ≠ .temp k hh := by
  cases r <;> simp_all [Register.noScratch]

/-- A `noScratch` register is not a `Const`. -/
lemma noScratch_get_const_none (r : Register) (h : r.noScratch = true) :
    r.get_const = none := by
  cases r <;> simp_all [Register.noScratch, Register.get_const]

/-- The plain assignment sequence realizing a list of (src, dst)
moves. -/
def assigns (pairs : List (Register × Register)) : List LirInstr :=
  pairs.map fun p => .assign p.2 p.1

/-- Registers not written by an assignment sequence keep their value. -/
lemma execList_assigns_frame (pairs : List (Register × Register)) :
    ∀ (σ : RegState) (r : Register), r ∉ pairs.map Prod.snd →
      execList σ (assigns pairs) r = σ r := by
  induction pairs with
  | nil => intro σ r _; rfl
  | cons a rest ih =>
      intro σ r hr
      simp only [List.map_cons, List.mem_cons, not_or] at hr
      have h1 : execList σ (assigns (a :: rest)) r
          = execList (Function.update σ a.2 (regValue σ a.1)) (assigns rest) r := rfl
      rw [h1, ih _ r hr.2, Function.update_noteq hr.1]

/-- Executing a list of moves whose destinations are pairwise distinct,
are never read as a source, and whose sources are not constants,
realizes the parallel move: every destination ends with the initial
value of its source. -/
lemma execList_assigns_spec (pairs : List (Register × Register)) :
    ∀ (σ : RegState),
      (pairs.map Prod.snd).Nodup →
      (∀ p ∈ pairs, ∀ q ∈ pairs, p.1 ≠ q.2) →
      (∀ p ∈ pairs, p.1.get_const = none) →
      ∀ p ∈ pairs, execList σ (assigns pairs) p.2 = σ p.1 := by
  induction pairs with
  | nil => intro σ _ _ _ p hp; cases hp
  | cons a rest ih =>
      intro σ hnd hds hsc p hp
      have hstep : execList σ (assigns (a :: rest))
          = execList (Function.update σ a.2 (regValue σ a.1)) (assigns rest) := rfl
      simp only [List.map_cons, List.nodup_cons] at hnd
      rcases List.mem_cons.mp hp with rfl | hp'
      · rw [hstep, execList_assigns_frame rest _ _ hnd.1,
          Function.update_same,
          regValue_of_get_const_none σ _ (hsc p (List.mem_cons_self _ _))]
      · have hrec := ih (Function.update σ a.2 (regValue σ a.1)) hnd.2
          (fun x hx y hy => hds x (List.mem_cons_of_mem _ hx) y (List.mem_cons_of_mem _ hy))
          (fun x hx => hsc x (List.mem_cons_of_mem _ hx)) p hp'
        rw [hstep, hrec, Function.update_noteq
          (hds p (List.mem_cons_of_mem _ hp') a (List.mem_cons_self _ _))]

/-- The direct pairs of `emit_copy`: half pairs whose source is outside
the needs-temp set. -/
def direct_pairs (ps : List (Register × Register)) : List (Register × Register) :=
  ps.filter fun p => !(need_tmp ps).contains p.1

/-- The scratch-save moves of `emit_copy` as (src, dst) pairs. -/
def save_pairs (ps : List (Register × Register)) : List (Register × Register) :=
  (ps.enum.filter fun q => (need_tmp ps).contains q.2.1).map fun q =>
    (q.2.1, Register.temp_lo q.1)

/-- The scratch-to-destination moves of `emit_copy` as (src, dst)
pairs. -/
def final_pairs (ps : List (Register × Register)) : List (Register × Register) :=
  (ps.enum.filter fun q => (need_tmp ps).contains q.2.1).map fun q =>
    (Register.temp_lo q.1, q.2.2)

/-- The unconditional emission of `emit_copy` is the three assignment
phases in order. -/
lemma emit_copy_regs_eq (ps : List (Register × Register)) :
    emit_copy_regs [] ps
      = assigns (direct_pairs ps)
        ++ (assigns (save_pairs ps) ++ assigns (final_pairs ps)) := by
  simp only [emit_copy_regs, assigns, direct_pairs, save_pairs, final_pairs,
    wrapConds, List.foldl_nil, List.map_map, List.append_assoc]
  rfl

/-- `flatMap` preserves the sublist relation. -/
lemma sublist_flatMap {α β : Type} (f : α → List β) {l₁ l₂ : List α}
    (h : List.Sublist l₁ l₂) : List.Sublist (l₁.flatMap f) (l₂.flatMap f) := by
  induction h with
  | slnil => exact List.Sublist.refl _
  | cons a h ih =>
      simp only [List.flatMap_cons]
      exact ih.trans (List.sublist_append_right _ _)
  | cons₂ a h ih =>
      simp only [List.flatMap_cons]
      exact List.Sublist.append (List.Sublist.refl (f a)) ih

end Wasmcraft

namespace Wasmcraft

/-- C1: executing the `Assign` sequence emitted by `emit_copy` for a set
of simultaneous copies leaves every destination register holding the
initial, pre-sequence value of its source register — cycles and chains
included — for every half pair obtained by dropping identity pairs and
splitting 64-bit pairs into lo/hi halves.  Hypotheses mirror
`emit_copy`'s asserts (equal lengths and types) plus the facts the
register allocators guarantee: allocated registers are never scratch
(`Temp`) or `Const` registers, and the destination halves are pairwise
distinct (simultaneous copies write distinct registers). -/
theorem emit_copy_parallel_move
    (ra : RA) (inP outP : List TypedSsaVar) (σ : RegState)
    (_hlen : inP.length = outP.length)
    (_hty : ∀ p ∈ inP.zip outP, p.1.ty = p.2.ty)
    (hsc : ∀ p ∈ all_half_pairs ra inP outP,
      p.1.noScratch = true ∧ p.2.noScratch = true)
    (hnd : ((all_half_pairs ra inP outP).map Prod.snd).Nodup) :
    ∀ p ∈ all_half_pairs ra inP outP,
      execList σ (emit_copy ra inP outP []) p.2 = σ p.1 := by
  intro p hp
  set ps := reg_pairs ra inP outP with hps
  have hmem_all : ∀ q ∈ ps, q ∈ all_half_pairs ra inP outP := by
    intro q hq
    rw [hps, reg_pairs] at hq
    obtain ⟨vp, hvp, hqvp⟩ := List.mem_flatMap.mp hq
    exact List.mem_flatMap.mpr ⟨vp, List.mem_of_mem_filter hvp, hqvp⟩
  have hscps : ∀ q ∈ ps, q.1.noScratch = true ∧ q.2.noScratch = true :=
    fun q hq => hsc q (hmem_all q hq)
  have hslps : List.Sublist (ps.map Prod.snd)
      ((all_half_pairs ra inP outP).map Prod.snd) := by
    rw [hps, reg_pairs, all_half_pairs]
    exact List.Sublist.map _ (sublist_flatMap _ (List.filter_sublist _))
  have hndps : (ps.map Prod.snd).Nodup := hslps.nodup hnd
  have hcontains : ∀ (r : Register),
      (need_tmp ps).contains r = true ↔ r ∈ need_tmp ps :=
    fun r => List.elem_iff
  have hkd : ∀ a ∈ direct_pairs ps, a.2 ∉ ps.map Prod.fst := by
    intro a ha hmem
    rw [direct_pairs, List.mem_filter] at ha
    have h2 : a.1 ∈ need_tmp ps := by
      rw [need_tmp]
      refine List.mem_map.mpr ⟨a, List.mem_filter.mpr ⟨ha.1, ?_⟩, rfl⟩
      rw [List.any_eq_true]
      obtain ⟨q, hq, hq2⟩ := List.mem_map.mp hmem
      exact ⟨q, hq, by simp [hq2]⟩
    have h3 := (hcontains a.1).mpr h2
    rw [h3] at ha
    simp at ha
  have hsubA : List.Sublist (direct_pairs ps) ps := List.filter_sublist _
  have hndA : ((direct_pairs ps).map Prod.snd).Nodup :=
    (List.Sublist.map _ hsubA).nodup hndps
  have hdsA : ∀ x ∈ direct_pairs ps, ∀ y ∈ direct_pairs ps, x.1 ≠ y.2 := by
    intro x hx y hy heq
    apply hkd y hy
    rw [← heq]
    exact List.mem_map_of_mem Prod.fst (hsubA.subset hx)
  have hscA : ∀ x ∈ direct_pairs ps, x.1.get_const = none :=
    fun x hx => noScratch_get_const_none _ (hscps x (hsubA.subset hx)).1
  have henum_mem : ∀ q ∈ ps.enum.filter (fun q => (need_tmp ps).contains q.2.1),
      q.2 ∈ ps := by
    intro q hq
    have h1 := List.mem_of_mem_filter hq
    have h2 := List.mem_map_of_mem Prod.snd h1
    rwa [List.enum_map_snd] at h2
  have hndB : ((save_pairs ps).map Prod.snd).Nodup := by
    rw [save_pairs, List.map_map]
    have he : (Prod.snd ∘ fun q : Nat × (Register × Register) =>
        (q.2.1, Register.temp_lo q.1)) = (Register.temp_lo ∘ Prod.fst) := rfl
    rw [he, ← List.map_map]
    apply List.Nodup.map
    · intro a b hab
      simpa [Register.temp_lo] using hab
    · have hsl2 : List.Sublist
          ((ps.enum.filter (fun q => (need_tmp ps).contains q.2.1)).map Prod.fst)
          (ps.enum.map Prod.fst) :=
        List.Sublist.map Prod.fst (List.filter_sublist ps.enum)
      rw [List.enum_map_fst] at hsl2
      exact hsl2.nodup (List.nodup_range _)
  have hdsB : ∀ x ∈ save_pairs ps, ∀ y ∈ save_pairs ps, x.1 ≠ y.2 := by
    intro x hx y hy
    rw [save_pairs, List.mem_map] at hx hy
    obtain ⟨qx, hqx, rfl⟩ := hx
    obtain ⟨qy, hqy, rfl⟩ := hy
    exact noScratch_ne_temp _ (hscps qx.2 (henum_mem qx hqx)).1 qy.1 .lo
  have hscB : ∀ x ∈ save_pairs ps, x.1.get_const = none := by
    intro x hx
    rw [save_pairs, List.mem_map] at hx
    obtain ⟨qx, hqx, rfl⟩ := hx
    exact noScratch_get_const_none _ (hscps qx.2 (henum_mem qx hqx)).1
  have hslC : List.Sublist ((final_pairs ps).map Prod.snd) (ps.map Prod.snd) := by
    rw [final_pairs, List.map_map]
    have he : (Prod.snd ∘ fun q : Nat × (Register × Register) =>
        (Register.temp_lo q.1, q.2.2)) = (Prod.snd ∘ Prod.snd) := rfl
    rw [he, ← List.map_map]
    apply List.Sublist.map
    have hsl2 : List.Sublist
        ((ps.enum.filter (fun q => (need_tmp ps).contains q.2.1)).map Prod.snd)
        (ps.enum.map Prod.snd) :=
      List.Sublist.map Prod.snd (List.filter_sublist ps.enum)
    rwa [List.enum_map_snd] at hsl2
  have hndC : ((final_pairs ps).map Prod.snd).Nodup := hslC.nodup hndps
  have hdsC : ∀ x ∈ final_pairs ps, ∀ y ∈ final_pairs ps, x.1 ≠ y.2 := by
    intro x hx y hy
    rw [final_pairs, List.mem_map] at hx hy
    obtain ⟨qx, hqx, rfl⟩ := hx
    obtain ⟨qy, hqy, rfl⟩ := hy
    exact fun h =>
      (noScratch_ne_temp _ (hscps qy.2 (henum_mem qy hqy)).2 qx.1 .lo) h.symm
  have hscC : ∀ x ∈ final_pairs ps, x.1.get_const = none := by
    intro x hx
    rw [final_pairs, List.mem_map] at hx
    obtain ⟨qx, hqx, rfl⟩ := hx
    rfl
  have hsplit : emit_copy ra inP outP []
      = assigns (direct_pairs ps)
        ++ (assigns (save_pairs ps) ++ assigns (final_pairs ps)) := by
    rw [emit_copy, ← hps, emit_copy_regs_eq]
  set σ₁ := execList σ (assigns (direct_pairs ps)) with hσ₁
  set σ₂ := execList σ₁ (assigns (save_pairs ps)) with hσ₂
  have hexec : execList σ (emit_copy ra inP outP [])
      = execList σ₂ (assigns (final_pairs ps)) := by
    rw [hsplit, execList_append, execList_append, ← hσ₁, ← hσ₂]
  have hsrcA : ∀ s ∈ ps.map Prod.fst, σ₁ s = σ s := by
    intro s hs
    rw [hσ₁]
    apply execList_assigns_frame
    intro hmem
    obtain ⟨a, ha, ha2⟩ := List.mem_map.mp hmem
    exact hkd a ha (by rw [ha2]; exact hs)
  have hframeB : ∀ (r : Register), r.noScratch = true → σ₂ r = σ₁ r := by
    intro r hr
    rw [hσ₂]
    apply execList_assigns_frame
    intro hmem
    rw [save_pairs, List.map_map] at hmem
    obtain ⟨q, hq, hq2⟩ := List.mem_map.mp hmem
    exact noScratch_ne_temp r hr q.1 .lo hq2.symm
  by_cases hpps : p ∈ ps
  · by_cases hneed : p.1 ∈ need_tmp ps
    · obtain ⟨i, hi⟩ := List.mem_iff_getElem?.mp hpps
      have hqenum : (i, p) ∈ ps.enum := List.mk_mem_enum_iff_getElem?.mpr hi
      have hqfilter : (i, p) ∈ ps.enum.filter
          (fun q => (need_tmp ps).contains q.2.1) := by
        rw [List.mem_filter]
        exact ⟨hqenum, (hcontains p.1).mpr hneed⟩
      have hb : (p.1, Register.temp_lo i) ∈ save_pairs ps := by
        rw [save_pairs]
        exact List.mem_map_of_mem _ hqfilter
      have hc : (Register.temp_lo i, p.2) ∈ final_pairs ps := by
        rw [final_pairs]
        exact List.mem_map_of_mem _ hqfilter
      have hC : execList σ₂ (assigns (final_pairs ps)) p.2
          = σ₂ (Register.temp_lo i) :=
        execList_assigns_spec (final_pairs ps) σ₂ hndC hdsC hscC _ hc
      have hB : σ₂ (Register.temp_lo i) = σ₁ p.1 := by
        rw [hσ₂]
        exact execList_assigns_spec (save_pairs ps) σ₁ hndB hdsB hscB _ hb
      have hA : σ₁ p.1 = σ p.1 :=
        hsrcA p.1 (List.mem_map_of_mem Prod.fst hpps)
      rw [hexec, hC, hB, hA]
    · have hpd : p ∈ direct_pairs ps := by
        rw [direct_pairs, List.mem_filter]
        refine ⟨hpps, ?_⟩
        have hcf : (need_tmp ps).contains p.1 = false := by
          rw [← Bool.not_eq_true]
          intro hcc
          exact hneed ((hcontains p.1).mp hcc)
        rw [hcf]
        rfl
      have hA : σ₁ p.2 = σ p.1 := by
        rw [hσ₁]
        exact execList_assigns_spec (direct_pairs ps) σ hndA hdsA hscA p hpd
      have h2 : σ₂ p.2 = σ₁ p.2 := hframeB p.2 (hscps p hpps).2
      have h3 : execList σ₂ (assigns (final_pairs ps)) p.2 = σ₂ p.2 := by
        apply execList_assigns_frame
        intro hmem
        rw [final_pairs, List.map_map] at hmem
        obtain ⟨q, hq, hq2⟩ := List.mem_map.mp hmem
        have hqps := henum_mem q hq
        have hqp : q.2 = p := List.inj_on_of_nodup_map hndps hqps hpps hq2
        rw [List.mem_filter] at hq
        rw [hqp] at hq
        exact hneed ((hcontains p.1).mp hq.2)
      rw [hexec, h3, h2, hA]
  · rw [all_half_pairs] at hp
    obtain ⟨vp, hvp, hphalf⟩ := List.mem_flatMap.mp hp
    have hvp_drop : vp ∉ param_pairs ra inP outP := by
      intro hkeep
      exact hpps (by
        rw [hps, reg_pairs]
        exact List.mem_flatMap.mpr ⟨vp, hkeep, hphalf⟩)
    have hid : p.1 = p.2 := by
      rcases vp with ⟨vi, vo⟩
      rw [param_pairs, List.mem_filter] at hvp_drop
      cases htyv : vi.ty
      case i32 =>
        have hreg : ra.get vi.id = ra.get vo.id := by
          by_contra hne
          exact hvp_drop ⟨hvp, by simp [htyv, hne]⟩
        simp only [halfPairs, htyv, List.mem_singleton] at hphalf
        subst hphalf
        simpa using hreg
      case i64 =>
        have hreg : ra.getDouble vi.id = ra.getDouble vo.id := by
          by_contra hne
          exact hvp_drop ⟨hvp, by simp [htyv, hne]⟩
        simp only [halfPairs, htyv, List.mem_cons, List.mem_singleton,
          List.not_mem_nil, or_false] at hphalf
        rcases hphalf with h | h
        · subst h
          simp [hreg]
        · subst h
          simp [hreg]
      case f32 =>
        have hreg : ra.get vi.id = ra.get vo.id := by
          by_contra hne
          exact hvp_drop ⟨hvp, by simp [htyv, hne]⟩
        simp only [halfPairs, htyv, List.mem_singleton] at hphalf
        subst hphalf
        simpa using hreg
      case f64 =>
        have hreg : ra.getDouble vi.id = ra.getDouble vo.id := by
          by_contra hne
          exact hvp_drop ⟨hvp, by simp [htyv, hne]⟩
        simp only [halfPairs, htyv, List.mem_cons, List.mem_singleton,
          List.not_mem_nil, or_false] at hphalf
        rcases hphalf with h | h
        · subst h
          simp [hreg]
        · subst h
          simp [hreg]
    have hnotdst : p.2 ∉ ps.map Prod.snd := by
      intro hmem
      obtain ⟨q, hq, hq2⟩ := List.mem_map.mp hmem
      have hqp : q = p := List.inj_on_of_nodup_map hnd (hmem_all q hq) hp hq2
      exact hpps (hqp ▸ hq)
    have h1 : σ₁ p.2 = σ p.2 := by
      rw [hσ₁]
      apply execList_assigns_frame
      intro hmem
      exact hnotdst ((List.Sublist.map Prod.snd hsubA).subset hmem)
    have h2 : σ₂ p.2 = σ₁ p.2 := hframeB p.2 (hsc p hp).2
    have h3 : execList σ₂ (assigns (final_pairs ps)) p.2 = σ₂ p.2 := by
      apply execList_assigns_frame
      intro hmem
      exact hnotdst (hslC.subset hmem)
    rw [hexec, h3, h2, h1, hid]

end Wasmcraft

namespace Wasmcraft

/-- Witness for C1: the two-element cycle (swap) `v0 → v1, v1 → v0`
under the no-op allocator; after the emitted sequence each destination
register holds the other register's initial value. -/
theorem emit_copy_parallel_move_witness :
    execList (fun r => match r with | .work _ 0 _ => 5 | _ => 7)
        (emit_copy (NoopRegAlloc.ra 0) [⟨0, .i32⟩, ⟨1, .i32⟩]
          [⟨1, .i32⟩, ⟨0, .i32⟩] [])
        (Register.work 0 1 .lo) = 5
    ∧ execList (fun r => match r with | .work _ 0 _ => 5 | _ => 7)
        (emit_copy (NoopRegAlloc.ra 0) [⟨0, .i32⟩, ⟨1, .i32⟩]
          [⟨1, .i32⟩, ⟨0, .i32⟩] [])
        (Register.work 0 0 .lo) = 7 := by
  constructor
  · have h := emit_copy_parallel_move (NoopRegAlloc.ra 0)
      [⟨0, .i32⟩, ⟨1, .i32⟩] [⟨1, .i32⟩, ⟨0, .i32⟩]
      (fun r => match r with | .work _ 0 _ => 5 | _ => 7)
      rfl (by decide) (by decide) (by decide)
      (Register.work 0 0 .lo, Register.work 0 1 .lo) (by decide)
    exact h
  · have h := emit_copy_parallel_move (NoopRegAlloc.ra 0)
      [⟨0, .i32⟩, ⟨1, .i32⟩] [⟨1, .i32⟩, ⟨0, .i32⟩]
      (fun r => match r with | .work _ 0 _ => 5 | _ => 7)
      rfl (by decide) (by decide) (by decide)
      (Register.work 0 1 .lo, Register.work 0 0 .lo) (by decide)
    exact h

end Wasmcraft

namespace Wasmcraft

/-- Counterexample to C9 as stated: the caller-save vector is collected
from a hash set (`li.live_out_body(..)` iterated into a `Vec`), whose
iteration order is not determined by the input program.  Handing the
same live-out *set* to the call lowering in its two possible iteration
orders yields different LIR: the `Push`/`Pop` register lists differ. -/
theorem lowering_depends_on_live_out_order :
    ([⟨0, .i32⟩, ⟨1, .i32⟩] : List TypedSsaVar).Perm [⟨1, .i32⟩, ⟨0, .i32⟩]
    ∧ lower_call 1 [] [] [⟨0, .i32⟩, ⟨1, .i32⟩] (fun _ _ => true)
        (fun _ => true) (NoopRegAlloc.ra 0) ⟨⟨0, 0⟩, [], ⟨0, [⟨0, 0⟩], []⟩⟩
      ≠ lower_call 1 [] [] [⟨1, .i32⟩, ⟨0, .i32⟩] (fun _ _ => true)
        (fun _ => true) (NoopRegAlloc.ra 0) ⟨⟨0, 0⟩, [], ⟨0, [⟨0, 0⟩], []⟩⟩ := by
  exact ⟨by decide, by decide⟩

/-- Equality of LIR instructions up to a permutation of the register
lists inside `Push` and `Pop`. -/
def instr_equiv : LirInstr → LirInstr → Prop
  | .push l₁, .push l₂ => l₁.Perm l₂
  | .pop l₁, .pop l₂ => l₁.Perm l₂
  | i, j => i = j

/-- `instr_equiv` is reflexive. -/
lemma instr_equiv_refl (i : LirInstr) : instr_equiv i i := by
  cases i <;> first
    | exact List.Perm.refl _
    | rfl

/-- Pushed block lists matching up to `Push`/`Pop` permutations: same
ids, same terminators, bodies pointwise `instr_equiv`. -/
def blocks_equiv (b₁ b₂ : List (BlockId × LirBasicBlock)) : Prop :=
  List.Forall₂ (fun x y => x.1 = y.1 ∧ x.2.term = y.2.term
    ∧ List.Forall₂ instr_equiv x.2.body y.2.body) b₁ b₂

/-- Emitter states matching up to `Push`/`Pop` permutations. -/
def emit_st_equiv (s₁ s₂ : EmitSt) : Prop :=
  s₁.block_id = s₂.block_id
  ∧ List.Forall₂ instr_equiv s₁.cur s₂.cur
  ∧ s₁.builder.func = s₂.builder.func
  ∧ s₁.builder.used_ids = s₂.builder.used_ids
  ∧ blocks_equiv s₁.builder.body s₂.builder.body

/-- `flatMap` preserves permutations. -/
lemma perm_flatMap {α β : Type} (f : α → List β) {l₁ l₂ : List α}
    (h : l₁.Perm l₂) : (l₁.flatMap f).Perm (l₂.flatMap f) := by
  induction h with
  | nil => exact List.Perm.refl _
  | cons x h ih =>
      simpa [List.flatMap_cons] using ih.append_left (f x)
  | swap x y l =>
      have h2 := (@List.perm_append_comm _ (f y) (f x)).append_right
        (l.flatMap f)
      simpa [List.flatMap_cons, List.append_assoc] using h2
  | trans h1 h2 ih1 ih2 => exact ih1.trans ih2

/-- Same live-out set (any iteration order) gives save lists that are
permutations of each other. -/
lemma save_list_perm (liveOut₁ liveOut₂ returns : List TypedSsaVar) (ra : RA)
    (h : liveOut₁.Perm liveOut₂) :
    (get_save_reg_list (to_save_list liveOut₁ returns) ra).Perm
      (get_save_reg_list (to_save_list liveOut₂ returns) ra) :=
  perm_flatMap _ (h.filter _)

/-- Pointwise-equal lists are `instr_equiv`. -/
lemma forall₂_instr_refl (l : List LirInstr) : List.Forall₂ instr_equiv l l :=
  List.forall₂_same.mpr fun x _ => instr_equiv_refl x

/-- `blocks_equiv` is reflexive. -/
lemma blocks_equiv_refl (b : List (BlockId × LirBasicBlock)) :
    blocks_equiv b b :=
  List.forall₂_same.mpr fun _ _ => ⟨rfl, rfl, forall₂_instr_refl _⟩

end Wasmcraft

namespace Wasmcraft

/-- `emit_st_equiv` is reflexive. -/
lemma emit_st_equiv_refl (s : EmitSt) : emit_st_equiv s s :=
  ⟨rfl, forall₂_instr_refl _, rfl, rfl, blocks_equiv_refl _⟩

/-- C9 amended: lowering a direct call is deterministic up to the order
of the registers inside the `Push`/`Pop` caller-save lists — the only
input the program does not determine is the iteration order of the
live-out hash set, and feeding the same live-out set in two different
orders yields emitter states that agree everywhere except that each
`Push`/`Pop` register list is permuted (and within one run the `Pop`
list always equals the `Push` list, per the call-lowering shape). -/
theorem lowering_deterministic_up_to_save_order
    (f : Nat) (params returns liveOut₁ liveOut₂ : List TypedSsaVar)
    (mayCall : Nat → Nat → Bool) (singleTick : Nat → Bool) (ra : RA)
    (st : EmitSt) (h : liveOut₁.Perm liveOut₂) :
    emit_st_equiv
      (lower_call f params returns liveOut₁ mayCall singleTick ra st)
      (lower_call f params returns liveOut₂ mayCall singleTick ra st) := by
  have hperm := save_list_perm liveOut₁ liveOut₂ returns ra h
  by_cases hst : singleTick f = true
  · by_cases hm : mayCall f st.block_id.func = true
    · simp only [lower_call, hst, hm, if_true]
      refine ⟨rfl, ?_, rfl, rfl, blocks_equiv_refl _⟩
      dsimp only
      simp only [List.append_assoc, List.singleton_append]
      apply List.rel_append (forall₂_instr_refl _)
      apply List.rel_append (forall₂_instr_refl _)
      exact List.Forall₂.cons hperm (List.Forall₂.cons (instr_equiv_refl _)
        (List.Forall₂.cons hperm (forall₂_instr_refl _)))
    · rw [Bool.not_eq_true] at hm
      simp only [lower_call, hst, hm, if_false, if_true]
      exact emit_st_equiv_refl _
  · rw [Bool.not_eq_true] at hst
    by_cases hm : mayCall f st.block_id.func = true
    · simp only [lower_call, hst, hm, if_true, if_false, LirFuncBuilder.push]
      refine ⟨rfl, ?_, rfl, rfl, ?_⟩
      · dsimp only
        simp only [List.append_assoc, List.singleton_append]
        exact List.Forall₂.cons hperm (forall₂_instr_refl _)
      · dsimp only
        apply List.rel_append (blocks_equiv_refl _)
        refine List.Forall₂.cons ⟨rfl, rfl, ?_⟩ List.Forall₂.nil
        dsimp only
        simp only [List.append_assoc, List.singleton_append]
        apply List.rel_append (forall₂_instr_refl _)
        apply List.rel_append (forall₂_instr_refl _)
        exact List.Forall₂.cons hperm (forall₂_instr_refl _)
    · rw [Bool.not_eq_true] at hm
      simp only [lower_call, hst, hm, if_false]
      exact emit_st_equiv_refl _

/-- Witness for C9's amended theorem: the two iteration orders of a
two-variable live-out set produce equivalent emitter states. -/
theorem lowering_deterministic_up_to_save_order_witness :
    ([⟨0, .i32⟩, ⟨1, .i32⟩] : List TypedSsaVar).Perm [⟨1, .i32⟩, ⟨0, .i32⟩]
    ∧ emit_st_equiv
        (lower_call 1 [] [] [⟨0, .i32⟩, ⟨1, .i32⟩] (fun _ _ => true)
          (fun _ => true) (NoopRegAlloc.ra 0) ⟨⟨0, 0⟩, [], ⟨0, [⟨0, 0⟩], []⟩⟩)
        (lower_call 1 [] [] [⟨1, .i32⟩, ⟨0, .i32⟩] (fun _ _ => true)
          (fun _ => true) (NoopRegAlloc.ra 0) ⟨⟨0, 0⟩, [], ⟨0, [⟨0, 0⟩], []⟩⟩) := by
  refine ⟨by decide, ?_⟩
  exact lowering_deterministic_up_to_save_order 1 [] []
    [⟨0, .i32⟩, ⟨1, .i32⟩] [⟨1, .i32⟩, ⟨0, .i32⟩] (fun _ _ => true)
    (fun _ => true) (NoopRegAlloc.ra 0) ⟨⟨0, 0⟩, [], ⟨0, [⟨0, 0⟩], []⟩⟩
    (by decide)

end Wasmcraft

namespace Wasmcraft

/-! ## The full register allocator (`reg_alloc.rs`)

The liveness module is not among the provided sources; `LiveRange` and
its operations are modelled from the spec (§4.1: per variable, a mapping
from block id to `(live_in, body intervals)`); `reg_alloc.rs` only
consumes them through `is_empty`, `overlap`, `merge` and per-block
lookup. -/

/-- A half-open interval of instruction indices (Rust `Range<usize>`). -/
structure IdxRange where
  start : Nat
  stop : Nat
deriving DecidableEq, Repr

/-- `Range::contains`. -/
def IdxRange.containsIdx (r : IdxRange) (n : Nat) : Bool :=
  r.start ≤ n && n < r.stop

/-- Modelled from the spec: the per-block view of a live range —
`(live_in : bool, body : [ranges of instruction indices])` (§4.1). -/
structure BlockLive where
  live_in : Bool
  body : List IdxRange
deriving DecidableEq, Repr

/-- Modelled from the spec: a live range is a mapping from block id to
per-block liveness (§4.1); represented as an association list. -/
abbrev LiveRange := List (BlockId × BlockLive)

/-- `live_range.0.get(block_id)`. -/
def LiveRange.get (lr : LiveRange) (b : BlockId) : Option BlockLive :=
  (lr.find? fun e => e.1 == b).map Prod.snd

/-- Modelled from the spec: a live range is empty (a dead variable) when
it records no live point: nowhere live-in and only empty intervals. -/
def LiveRange.is_empty (lr : LiveRange) : Bool :=
  lr.all fun e => !e.2.live_in && e.2.body.all fun r => r.stop ≤ r.start

/-- Modelled from the spec: intersection of two per-block views. -/
def BlockLive.inter (x y : BlockLive) : BlockLive :=
  ⟨x.live_in && y.live_in,
   x.body.flatMap fun r => y.body.filterMap fun r2 =>
     if max r.start r2.start < min r.stop r2.stop then
       some ⟨max r.start r2.start, min r.stop r2.stop⟩
     else none⟩

/-- Modelled from the spec: `LiveRange::overlap` — the blockwise
intersection of two live ranges (§4.4 step 5 tests its emptiness). -/
def LiveRange.overlap (a b : LiveRange) : LiveRange :=
  a.filterMap fun e => (b.get e.1).map fun y => (e.1, e.2.inter y)

/-- Modelled from the spec: `LiveRange::merge` — the blockwise union of
two live ranges (§4.4 step 6). -/
def LiveRange.mergeRange (a b : LiveRange) : LiveRange :=
  (a.map fun e =>
    match b.get e.1 with
    | some y => (e.1, (⟨e.2.live_in || y.live_in, e.2.body ++ y.body⟩ : BlockLive))
    | none => e)
  ++ b.filter fun e => (a.get e.1).isNone

/-- `MergedRegister { members, live_range }` (`reg_alloc.rs`).  The
members are a `BTreeSet` in the source; here a list whose order is
irrelevant (the representative is the minimum). -/
structure MergedRegister where
  members : List TypedSsaVar
  live_range : LiveRange
deriving DecidableEq, Repr

/-- `RegisterSet` — the list of merged registers. -/
abbrev RegisterSet := List MergedRegister

/-- `RegisterSet::get_idx` (panics — `none` — when the variable is in no
set). -/
def RegisterSet.get_idx (sets : RegisterSet) (v : TypedSsaVar) : Option Nat :=
  sets.findIdx? fun s => s.members.contains v

/-- `RegisterSet::get`. -/
def RegisterSet.getSet (sets : RegisterSet) (v : TypedSsaVar) :
    Option MergedRegister :=
  sets.find? fun s => s.members.contains v

/-- `RegisterSet::merge`: remove the set containing `var1`, then the set
containing `var2`, and push the union of members and live ranges
(`reg_alloc.rs` lines 224–235).  `none` models the `unwrap` panics. -/
def RegisterSet.merge (sets : RegisterSet) (var1 var2 : TypedSsaVar) :
    Option RegisterSet := do
  let r1 ← sets.findIdx? fun s => s.members.contains var1
  let m1 ← sets[r1]?
  let sets₁ := sets.eraseIdx r1
  let r2 ← sets₁.findIdx? fun s => s.members.contains var2
  let m2 ← sets₁[r2]?
  let sets₂ := sets₁.eraseIdx r2
  some (sets₂ ++ [⟨m1.members ++ m2.members, m1.live_range.mergeRange m2.live_range⟩])

/-- The interference graph: adjacency lists over typed SSA variables
(`InterfGraph` in `reg_alloc.rs`; a `HashMap` keyed by variable). -/
abbrev InterfGraph := List (TypedSsaVar × List TypedSsaVar)

/-- Neighbour lookup (`self.0.get(lhs_reg)`, empty when absent). -/
def InterfGraph.adjOf (g : InterfGraph) (v : TypedSsaVar) : List TypedSsaVar :=
  ((g.find? fun e => e.1 == v).map Prod.snd).getD []

/-- `InterfGraph::interferes`. -/
def InterfGraph.interferes (g : InterfGraph) (lhs rhs : MergedRegister) : Bool :=
  lhs.members.any fun m => (g.adjOf m).any fun n => rhs.members.contains n

/-- `InterfGraph::add_dir_edge`: append `b` to `a`'s adjacency list if
not already present. -/
def InterfGraph.add_dir_edge (g : InterfGraph) (a b : TypedSsaVar) : InterfGraph :=
  match g with
  | [] => [(a, [b])]
  | e :: rest =>
      if e.1 = a then
        if e.2.contains b then e :: rest else (e.1, e.2 ++ [b]) :: rest
      else
        e :: InterfGraph.add_dir_edge rest a b

/-- `InterfGraph::add_edge`: edges are added symmetrically. -/
def InterfGraph.add_edge (g : InterfGraph) (a b : TypedSsaVar) : InterfGraph :=
  (g.add_dir_edge a b).add_dir_edge b a

/-- The outcome of a coalescing attempt: the (possibly updated) register
set, or a fatal panic. -/
inductive MergeResult where
  | ok (sets : RegisterSet)
  | fatal
deriving DecidableEq, Repr

/-- `try_merge` (`reg_alloc.rs` lines 306–340): instruction-derived
coalescing.  Checks, in source order: already merged; interference;
*empty live ranges — skipped with only a printed warning*; overlap; the
internal consistency `panic!` on the destination's body range; then
merges. -/
def try_merge (sets : RegisterSet) (block_id : BlockId) (instr_idx : Nat)
    (dst src : TypedSsaVar) (g : InterfGraph) : MergeResult :=
  match sets.get_idx dst, sets.get_idx src with
  | some i1, some i2 =>
    if i1 = i2 then .ok sets
    else
      match sets.getSet dst, sets.getSet src with
      | some dst_set, some src_set =>
          if g.interferes dst_set src_set then .ok sets
          else if dst_set.live_range.is_empty then .ok sets
          else if src_set.live_range.is_empty then .ok sets
          else if (dst_set.live_range.overlap src_set.live_range).is_empty then
            match dst_set.live_range.get block_id with
            | none => .fatal
            | some dbl =>
                if dbl.body.any fun r => r.containsIdx (instr_idx + 1) then
                  match sets.merge dst src with
                  | some sets₂ => .ok sets₂
                  | none => .fatal
                else .fatal
          else .ok sets
      | _, _ => .fatal
  | _, _ => .fatal

/-- The successor scan of `try_merge_term`: `none` models the `unwrap`
panic on a successor missing from the live range; `some true` is the
early return on a `live_in` successor. -/
def check_succs (lr : LiveRange) : List BlockId → Option Bool
  | [] => some false
  | sb :: rest =>
      match lr.get sb with
      | none => none
      | some bl => if bl.live_in then some true else check_succs lr rest

/-- `try_merge_term` (`reg_alloc.rs` lines 254–304): terminator-induced
coalescing.  Checks, in source order: already merged; *empty live
ranges — a `panic!`, i.e. fatal*; interference; the successor `live_in`
scan; overlap; then merges. -/
def try_merge_term (sets : RegisterSet) (_block_id : BlockId)
    (dst src : TypedSsaVar) (succs : List BlockId) (g : InterfGraph) :
    MergeResult :=
  match sets.get_idx dst, sets.get_idx src with
  | some i1, some i2 =>
    if i1 = i2 then .ok sets
    else
      match sets.getSet dst, sets.getSet src with
      | some dst_set, some src_set =>
          if dst_set.live_range.is_empty then .fatal
          else if src_set.live_range.is_empty then .fatal
          else if g.interferes dst_set src_set then .ok sets
          else
            match check_succs dst_set.live_range succs with
            | none => .fatal
            | some true => .ok sets
            | some false =>
                if (dst_set.live_range.overlap src_set.live_range).is_empty then
                  match sets.merge dst src with
                  | some sets₂ => .ok sets₂
                  | none => .fatal
                else .ok sets
      | _, _ => .fatal
  | _, _ => .fatal

end Wasmcraft

namespace Wasmcraft

/-- Counterexample to C6 as stated: a terminator-induced coalescing
attempt on a variable whose merged register has an empty live range is
*fatal* — `try_merge_term` panics (`merging to dead destination`) —
whereas the claim says every such attempt is non-fatal. -/
theorem coalesce_dead_term_counterexample :
    LiveRange.is_empty ([] : LiveRange) = true
    ∧ try_merge_term
        [⟨[⟨0, .i32⟩], []⟩, ⟨[⟨1, .i32⟩], []⟩]
        ⟨0, 0⟩ ⟨0, .i32⟩ ⟨1, .i32⟩ [] [] = .fatal := by
  decide

/-- C6 amended: for *instruction-derived* pairs (`try_merge`), an empty
live range on either side makes the attempt a non-fatal skip (at most a
printed warning) that leaves the register set unchanged; but for
*terminator-induced* pairs (`try_merge_term`), an empty live range on
either side is fatal (a `panic!`) whenever the two variables are not
already in the same merged register. -/
theorem coalesce_dead_variable_amended :
    (∀ (sets : RegisterSet) (block_id : BlockId) (instr_idx : Nat)
        (dst src : TypedSsaVar) (g : InterfGraph) (i1 i2 : Nat)
        (ds ss : MergedRegister),
      sets.get_idx dst = some i1 → sets.get_idx src = some i2 →
      sets.getSet dst = some ds → sets.getSet src = some ss →
      (ds.live_range.is_empty = true ∨ ss.live_range.is_empty = true) →
      try_merge sets block_id instr_idx dst src g = .ok sets)
    ∧ (∀ (sets : RegisterSet) (block_id : BlockId) (dst src : TypedSsaVar)
        (succs : List BlockId) (g : InterfGraph) (i1 i2 : Nat)
        (ds ss : MergedRegister),
      sets.get_idx dst = some i1 → sets.get_idx src = some i2 → i1 ≠ i2 →
      sets.getSet dst = some ds → sets.getSet src = some ss →
      (ds.live_range.is_empty = true
        ∨ (ds.live_range.is_empty = false ∧ ss.live_range.is_empty = true)) →
      try_merge_term sets block_id dst src succs g = .fatal) := by
  constructor
  · intro sets block_id instr_idx dst src g i1 i2 ds ss h1 h2 hd hs hemp
    rcases hemp with he | he
    · simp [try_merge, h1, h2, hd, hs, he]
    · by_cases hde : ds.live_range.is_empty = true
      · simp [try_merge, h1, h2, hd, hs, hde]
      · rw [Bool.not_eq_true] at hde
        simp [try_merge, h1, h2, hd, hs, hde, he]
  · intro sets block_id dst src succs g i1 i2 ds ss h1 h2 hii hd hs hemp
    rcases hemp with he | he
    · simp [try_merge_term, h1, h2, hii, hd, hs, he]
    · simp [try_merge_term, h1, h2, hii, hd, hs, he.1, he.2]

/-- Witness for C6's amended theorem: an instruction-derived attempt on
a dead (empty-live-range) variable returns the register set
unchanged. -/
theorem coalesce_dead_variable_amended_witness :
    RegisterSet.get_idx [⟨[⟨0, .i32⟩], []⟩, ⟨[⟨1, .i32⟩], []⟩] ⟨0, .i32⟩ = some 0
    ∧ RegisterSet.get_idx [⟨[⟨0, .i32⟩], []⟩, ⟨[⟨1, .i32⟩], []⟩] ⟨1, .i32⟩ = some 1
    ∧ RegisterSet.getSet [⟨[⟨0, .i32⟩], []⟩, ⟨[⟨1, .i32⟩], []⟩] ⟨0, .i32⟩
        = some ⟨[⟨0, .i32⟩], []⟩
    ∧ RegisterSet.getSet [⟨[⟨0, .i32⟩], []⟩, ⟨[⟨1, .i32⟩], []⟩] ⟨1, .i32⟩
        = some ⟨[⟨1, .i32⟩], []⟩
    ∧ LiveRange.is_empty ([] : LiveRange) = true
    ∧ try_merge [⟨[⟨0, .i32⟩], []⟩, ⟨[⟨1, .i32⟩], []⟩] ⟨0, 0⟩ 3
        ⟨0, .i32⟩ ⟨1, .i32⟩ []
      = .ok [⟨[⟨0, .i32⟩], []⟩, ⟨[⟨1, .i32⟩], []⟩] := by
  refine ⟨by decide, by decide, by decide, by decide, by decide, ?_⟩
  exact coalesce_dead_variable_amended.1
    [⟨[⟨0, .i32⟩], []⟩, ⟨[⟨1, .i32⟩], []⟩] ⟨0, 0⟩ 3 ⟨0, .i32⟩ ⟨1, .i32⟩ []
    0 1 ⟨[⟨0, .i32⟩], []⟩ ⟨[⟨1, .i32⟩], []⟩
    (by decide) (by decide) (by decide) (by decide) (Or.inl (by decide))

end Wasmcraft


namespace Wasmcraft

/-- The SSA instruction constructors consulted by `InterfGraph::new`
(`reg_alloc.rs` lines 94–148); the remaining constructors of the source
enum add no interference edges (wildcard arm) and are outside the
claims' scope. -/
inductive SsaInstr where
  | add (dst : TypedSsaVar) (lhs rhs : SsaVarOrConst)
  | ctz (dst src : TypedSsaVar)
  | geU (dst : TypedSsaVar) (lhs rhs : SsaVarOrConst)
  | gtU (dst : TypedSsaVar) (lhs rhs : SsaVarOrConst)
  | leU (dst : TypedSsaVar) (lhs rhs : SsaVarOrConst)
  | ltU (dst : TypedSsaVar) (lhs rhs : SsaVarOrConst)
  | geS (dst : TypedSsaVar) (lhs rhs : SsaVarOrConst)
  | gtS (dst : TypedSsaVar) (lhs rhs : SsaVarOrConst)
  | leS (dst : TypedSsaVar) (lhs rhs : SsaVarOrConst)
  | ltS (dst : TypedSsaVar) (lhs rhs : SsaVarOrConst)
  | remU (dst lhs : TypedSsaVar) (rhs : SsaVarOrConst)
deriving DecidableEq, Repr

/-- Edges added by comparison arms: destination against each variable
operand. -/
def add_cmp_edges (g : InterfGraph) (dst : TypedSsaVar)
    (lhs rhs : SsaVarOrConst) : InterfGraph :=
  let g1 := match lhs.get_var with
    | some l => g.add_edge dst l
    | none => g
  match rhs.get_var with
  | some r => g1.add_edge dst r
  | none => g1

/-- The per-instruction step of `InterfGraph::new`'s scan. -/
def add_instr_edges (g : InterfGraph) : SsaInstr → InterfGraph
  | .add dst lhs rhs =>
      if dst.ty = .i64 then
        let g1 := match lhs.get_var with
          | some l => g.add_edge dst l
          | none => g
        let g2 := match rhs.get_var with
          | some r => g1.add_edge dst r
          | none => g1
        match lhs.get_var, rhs.get_var with
        | some l, some r => g2.add_edge l r
        | _, _ => g2
      else g
  | .ctz dst src => if dst.ty = .i64 then g.add_edge dst src else g
  | .geU dst lhs rhs => add_cmp_edges g dst lhs rhs
  | .gtU dst lhs rhs => add_cmp_edges g dst lhs rhs
  | .leU dst lhs rhs => add_cmp_edges g dst lhs rhs
  | .ltU dst lhs rhs => add_cmp_edges g dst lhs rhs
  | .geS dst lhs rhs =>
      if dst.ty = .i64 then add_cmp_edges g dst lhs rhs else g
  | .gtS dst lhs rhs =>
      if dst.ty = .i64 then add_cmp_edges g dst lhs rhs else g
  | .leS dst lhs rhs =>
      if dst.ty = .i64 then add_cmp_edges g dst lhs rhs else g
  | .ltS dst lhs rhs =>
      if dst.ty = .i64 then add_cmp_edges g dst lhs rhs else g
  | .remU dst lhs rhs =>
      if dst.ty = .i32 then
        let g1 := g.add_edge dst lhs
        match rhs.get_var with
        | some r => g1.add_edge dst r
        | none => g1
      else g

/-- `InterfGraph::new`: scan every instruction of the function (blocks
in insertion order, instructions in index order — flattened here; the
block structure does not affect the accumulated edges). -/
def InterfGraph.new (instrs : List SsaInstr) : InterfGraph :=
  instrs.foldl add_instr_edges []

/-- Adjacency as a proposition. -/
def InterfGraph.adj (g : InterfGraph) (a b : TypedSsaVar) : Prop :=
  b ∈ g.adjOf a

/-- The empty graph has no edges. -/
lemma adjOf_nil (x : TypedSsaVar) : InterfGraph.adjOf [] x = [] := rfl

/-- Unfolding neighbour lookup over a cons cell. -/
lemma adjOf_cons (e : TypedSsaVar × List TypedSsaVar) (rest : InterfGraph)
    (x : TypedSsaVar) :
    InterfGraph.adjOf (e :: rest) x
      = if e.1 = x then e.2 else InterfGraph.adjOf rest x := by
  by_cases h : e.1 = x
  · rw [InterfGraph.adjOf, List.find?_cons_of_pos _ (by simp [h]), if_pos h]
    rfl
  · rw [InterfGraph.adjOf, List.find?_cons_of_neg _ (by simp [h]), if_neg h]
    rfl

/-- `add_dir_edge` preserves existing edges. -/
lemma adj_mono_add_dir_edge (g : InterfGraph) (a b x y : TypedSsaVar)
    (h : y ∈ g.adjOf x) : y ∈ (g.add_dir_edge a b).adjOf x := by
  induction g with
  | nil => simp [adjOf_nil] at h
  | cons e rest ih =>
      rw [adjOf_cons] at h
      by_cases hea : e.1 = a
      · by_cases hcb : e.2.contains b = true
        · rw [show InterfGraph.add_dir_edge (e :: rest) a b = e :: rest by
            rw [InterfGraph.add_dir_edge, if_pos hea, if_pos hcb]]
          rw [adjOf_cons]
          exact h
        · rw [show InterfGraph.add_dir_edge (e :: rest) a b
              = (e.1, e.2 ++ [b]) :: rest by
            rw [InterfGraph.add_dir_edge, if_pos hea, if_neg hcb]]
          rw [adjOf_cons]
          by_cases hex : e.1 = x
          · rw [if_pos hex] at h ⊢
            exact List.mem_append_left _ h
          · rw [if_neg hex] at h ⊢
            exact h
      · rw [show InterfGraph.add_dir_edge (e :: rest) a b
            = e :: InterfGraph.add_dir_edge rest a b by
          rw [InterfGraph.add_dir_edge, if_neg hea]]
        rw [adjOf_cons]
        by_cases hex : e.1 = x
        · rw [if_pos hex] at h ⊢
          exact h
        · rw [if_neg hex] at h ⊢
          exact ih h

/-- `add_dir_edge` inserts its edge. -/
lemma adj_self_add_dir_edge (g : InterfGraph) (a b : TypedSsaVar) :
    b ∈ (g.add_dir_edge a b).adjOf a := by
  induction g with
  | nil =>
      rw [show InterfGraph.add_dir_edge [] a b = [(a, [b])] from rfl, adjOf_cons]
      simp
  | cons e rest ih =>
      by_cases hea : e.1 = a
      · by_cases hcb : e.2.contains b = true
        · rw [show InterfGraph.add_dir_edge (e :: rest) a b = e :: rest by
            rw [InterfGraph.add_dir_edge, if_pos hea, if_pos hcb]]
          rw [adjOf_cons, if_pos hea]
          exact List.elem_iff.mp hcb
        · rw [show InterfGraph.add_dir_edge (e :: rest) a b
              = (e.1, e.2 ++ [b]) :: rest by
            rw [InterfGraph.add_dir_edge, if_pos hea, if_neg hcb]]
          rw [adjOf_cons, if_pos hea]
          simp
      · rw [show InterfGraph.add_dir_edge (e :: rest) a b
            = e :: InterfGraph.add_dir_edge rest a b by
          rw [InterfGraph.add_dir_edge, if_neg hea]]
        rw [adjOf_cons, if_neg hea]
        exact ih

/-- Inversion: an edge of the extended graph is an old edge or the
inserted one. -/
lemma adj_inv_add_dir_edge (g : InterfGraph) (a b x y : TypedSsaVar)
    (h : y ∈ (g.add_dir_edge a b).adjOf x) :
    y ∈ g.adjOf x ∨ (x = a ∧ y = b) := by
  induction g with
  | nil =>
      rw [show InterfGraph.add_dir_edge [] a b = [(a, [b])] from rfl,
        adjOf_cons] at h
      by_cases hax : a = x
      · rw [if_pos hax] at h
        simp at h
        exact Or.inr ⟨hax.symm, h⟩
      · rw [if_neg hax] at h
        simp [adjOf_nil] at h
  | cons e rest ih =>
      by_cases hea : e.1 = a
      · by_cases hcb : e.2.contains b = true
        · rw [show InterfGraph.add_dir_edge (e :: rest) a b = e :: rest by
            rw [InterfGraph.add_dir_edge, if_pos hea, if_pos hcb]] at h
          exact Or.inl h
        · rw [show InterfGraph.add_dir_edge (e :: rest) a b
              = (e.1, e.2 ++ [b]) :: rest by
            rw [InterfGraph.add_dir_edge, if_pos hea, if_neg hcb]] at h
          rw [adjOf_cons] at h
          by_cases hex : e.1 = x
          · rw [if_pos hex] at h
            rcases List.mem_append.mp h with h2 | h2
            · left
              rw [adjOf_cons, if_pos hex]
              exact h2
            · simp at h2
              exact Or.inr ⟨by rw [← hex, hea], h2⟩
          · rw [if_neg hex] at h
            left
            rw [adjOf_cons, if_neg hex]
            exact h
      · rw [show InterfGraph.add_dir_edge (e :: rest) a b
            = e :: InterfGraph.add_dir_edge rest a b by
          rw [InterfGraph.add_dir_edge, if_neg hea]] at h
        rw [adjOf_cons] at h
        by_cases hex : e.1 = x
        · rw [if_pos hex] at h
          left
          rw [adjOf_cons, if_pos hex]
          exact h
        · rw [if_neg hex] at h
          rcases ih h with h2 | h2
          · left
            rw [adjOf_cons, if_neg hex]
            exact h2
          · exact Or.inr h2

end Wasmcraft

namespace Wasmcraft

/-- `add_edge` preserves existing edges. -/
lemma adj_mono_add_edge {g : InterfGraph} {x y : TypedSsaVar}
    (a b : TypedSsaVar) (h : g.adj x y) : (g.add_edge a b).adj x y :=
  adj_mono_add_dir_edge _ b a x y (adj_mono_add_dir_edge _ a b x y h)

/-- `add_edge` inserts the forward edge. -/
lemma adj_add_edge_left (g : InterfGraph) (a b : TypedSsaVar) :
    (g.add_edge a b).adj a b :=
  adj_mono_add_dir_edge _ b a a b (adj_self_add_dir_edge g a b)

/-- `add_edge` inserts the backward edge. -/
lemma adj_add_edge_right (g : InterfGraph) (a b : TypedSsaVar) :
    (g.add_edge a b).adj b a :=
  adj_self_add_dir_edge _ b a

/-- Inversion for `add_edge`. -/
lemma adj_inv_add_edge {g : InterfGraph} {a b x y : TypedSsaVar}
    (h : (g.add_edge a b).adj x y) :
    g.adj x y ∨ (x = a ∧ y = b) ∨ (x = b ∧ y = a) := by
  rcases adj_inv_add_dir_edge _ b a x y h with h2 | h2
  · rcases adj_inv_add_dir_edge _ a b x y h2 with h3 | h3
    · exact Or.inl h3
    · exact Or.inr (Or.inl h3)
  · exact Or.inr (Or.inr h2)

/-- A symmetric interference graph. -/
def InterfGraph.Sym (g : InterfGraph) : Prop :=
  ∀ x y, g.adj x y → g.adj y x

/-- The empty graph is symmetric. -/
lemma sym_nil : InterfGraph.Sym [] := by
  intro x y h
  simp [InterfGraph.adj, adjOf_nil] at h

/-- `add_edge` preserves symmetry. -/
lemma sym_add_edge {g : InterfGraph} (a b : TypedSsaVar)
    (h : g.Sym) : (g.add_edge a b).Sym := by
  intro x y hxy
  rcases adj_inv_add_edge hxy with h2 | ⟨rfl, rfl⟩ | ⟨rfl, rfl⟩
  · exact adj_mono_add_edge a b (h x y h2)
  · exact adj_add_edge_right g x y
  · exact adj_add_edge_left g y x

/-- `add_cmp_edges` preserves symmetry. -/
lemma sym_add_cmp_edges {g : InterfGraph} (dst : TypedSsaVar)
    (lhs rhs : SsaVarOrConst) (h : g.Sym) : (add_cmp_edges g dst lhs rhs).Sym := by
  rw [add_cmp_edges]
  cases lhs.get_var <;> cases rhs.get_var <;>
    simp <;>
    first
      | exact h
      | exact sym_add_edge _ _ h
      | exact sym_add_edge _ _ (sym_add_edge _ _ h)

/-- Every instruction step preserves symmetry. -/
lemma sym_add_instr_edges {g : InterfGraph} (i : SsaInstr)
    (h : g.Sym) : (add_instr_edges g i).Sym := by
  cases i with
  | add dst lhs rhs =>
      rw [add_instr_edges]
      by_cases hty : dst.ty = .i64
      · simp only [hty, if_true]
        cases lhs.get_var <;> cases rhs.get_var <;>
          simp <;>
          first
            | exact h
            | exact sym_add_edge _ _ h
            | exact sym_add_edge _ _ (sym_add_edge _ _ h)
            | exact sym_add_edge _ _ (sym_add_edge _ _ (sym_add_edge _ _ h))
      · simp only [hty, if_false]
        exact h
  | ctz dst src =>
      rw [add_instr_edges]
      by_cases hty : dst.ty = .i64
      · simp only [hty, if_true]
        exact sym_add_edge _ _ h
      · simp only [hty, if_false]
        exact h
  | geU dst lhs rhs => exact sym_add_cmp_edges dst lhs rhs h
  | gtU dst lhs rhs => exact sym_add_cmp_edges dst lhs rhs h
  | leU dst lhs rhs => exact sym_add_cmp_edges dst lhs rhs h
  | ltU dst lhs rhs => exact sym_add_cmp_edges dst lhs rhs h
  | geS dst lhs rhs =>
      rw [add_instr_edges]
      by_cases hty : dst.ty = .i64
      · simp only [hty, if_true]
        exact sym_add_cmp_edges dst lhs rhs h
      · simp only [hty, if_false]
        exact h
  | gtS dst lhs rhs =>
      rw [add_instr_edges]
      by_cases hty : dst.ty = .i64
      · simp only [hty, if_true]
        exact sym_add_cmp_edges dst lhs rhs h
      · simp only [hty, if_false]
        exact h
  | leS dst lhs rhs =>
      rw [add_instr_edges]
      by_cases hty : dst.ty = .i64
      · simp only [hty, if_true]
        exact sym_add_cmp_edges dst lhs rhs h
      · simp only [hty, if_false]
        exact h
  | ltS dst lhs rhs =>
      rw [add_instr_edges]
      by_cases hty : dst.ty = .i64
      · simp only [hty, if_true]
        exact sym_add_cmp_edges dst lhs rhs h
      · simp only [hty, if_false]
        exact h
  | remU dst lhs rhs =>
      rw [add_instr_edges]
      by_cases hty : dst.ty = .i32
      · simp only [hty, if_true]
        cases rhs.get_var <;> simp <;>
          first
            | exact sym_add_edge _ _ h
            | exact sym_add_edge _ _ (sym_add_edge _ _ h)
      · simp only [hty, if_false]
        exact h

/-- The constructed interference graph is symmetric. -/
lemma sym_interf_graph_new (instrs : List SsaInstr) :
    (InterfGraph.new instrs).Sym := by
  rw [InterfGraph.new]
  have hfold : ∀ (l : List SsaInstr) (g : InterfGraph), g.Sym →
      (l.foldl add_instr_edges g).Sym := by
    intro l
    induction l with
    | nil => intro g hg; exact hg
    | cons i rest ih =>
        intro g hg
        exact ih _ (sym_add_instr_edges i hg)
  exact hfold instrs [] sym_nil

/-- Instruction steps only add edges. -/
lemma adj_mono_add_instr_edges {g : InterfGraph} {x y : TypedSsaVar}
    (i : SsaInstr) (h : g.adj x y) : (add_instr_edges g i).adj x y := by
  have hcmp : ∀ (g' : InterfGraph) (dst : TypedSsaVar) (lhs rhs : SsaVarOrConst),
      g'.adj x y → (add_cmp_edges g' dst lhs rhs).adj x y := by
    intro g' dst lhs rhs h'
    rw [add_cmp_edges]
    cases lhs.get_var <;> cases rhs.get_var <;>
      simp <;>
      first
        | exact h'
        | exact adj_mono_add_edge _ _ h'
        | exact adj_mono_add_edge _ _ (adj_mono_add_edge _ _ h')
  cases i with
  | add dst lhs rhs =>
      rw [add_instr_edges]
      by_cases hty : dst.ty = .i64
      · simp only [hty, if_true]
        cases lhs.get_var <;> cases rhs.get_var <;>
          simp <;>
          first
            | exact h
            | exact adj_mono_add_edge _ _ h
            | exact adj_mono_add_edge _ _ (adj_mono_add_edge _ _ h)
            | exact adj_mono_add_edge _ _
                (adj_mono_add_edge _ _ (adj_mono_add_edge _ _ h))
      · simp only [hty, if_false]
        exact h
  | ctz dst src =>
      rw [add_instr_edges]
      by_cases hty : dst.ty = .i64
      · simp only [hty, if_true]
        exact adj_mono_add_edge _ _ h
      · simp only [hty, if_false]
        exact h
  | geU dst lhs rhs => exact hcmp g dst lhs rhs h
  | gtU dst lhs rhs => exact hcmp g dst lhs rhs h
  | leU dst lhs rhs => exact hcmp g dst lhs rhs h
  | ltU dst lhs rhs => exact hcmp g dst lhs rhs h
  | geS dst lhs rhs =>
      rw [add_instr_edges]
      by_cases hty : dst.ty = .i64
      · simp only [hty, if_true]
        exact hcmp g dst lhs rhs h
      · simp only [hty, if_false]
        exact h
  | gtS dst lhs rhs =>
      rw [add_instr_edges]
      by_cases hty : dst.ty = .i64
      · simp only [hty, if_true]
        exact hcmp g dst lhs rhs h
      · simp only [hty, if_false]
        exact h
  | leS dst lhs rhs =>
      rw [add_instr_edges]
      by_cases hty : dst.ty = .i64
      · simp only [hty, if_true]
        exact hcmp g dst lhs rhs h
      · simp only [hty, if_false]
        exact h
  | ltS dst lhs rhs =>
      rw [add_instr_edges]
      by_cases hty : dst.ty = .i64
      · simp only [hty, if_true]
        exact hcmp g dst lhs rhs h
      · simp only [hty, if_false]
        exact h
  | remU dst lhs rhs =>
      rw [add_instr_edges]
      by_cases hty : dst.ty = .i32
      · simp only [hty, if_true]
        cases rhs.get_var <;> simp <;>
          first
            | exact adj_mono_add_edge _ _ h
            | exact adj_mono_add_edge _ _ (adj_mono_add_edge _ _ h)
      · simp only [hty, if_false]
        exact h

/-- Edges survive the rest of the scan. -/
lemma adj_mono_foldl {x y : TypedSsaVar} :
    ∀ (l : List SsaInstr) (g : InterfGraph), g.adj x y →
      (l.foldl add_instr_edges g).adj x y := by
  intro l
  induction l with
  | nil => intro g hg; exact hg
  | cons i rest ih =>
      intro g hg
      exact ih _ (adj_mono_add_instr_edges i hg)

/-- A 64-bit `Add` on two variable operands contributes all three
pairwise edges to the interference graph. -/
lemma interf_graph_add64_edges (instrs : List SsaInstr)
    (dst l r : TypedSsaVar) (hty : dst.ty = .i64)
    (hmem : SsaInstr.add dst (.var l) (.var r) ∈ instrs) :
    (InterfGraph.new instrs).adj dst l
    ∧ (InterfGraph.new instrs).adj dst r
    ∧ (InterfGraph.new instrs).adj l r := by
  rw [InterfGraph.new]
  have hgen : ∀ (li : List SsaInstr) (g : InterfGraph),
      SsaInstr.add dst (.var l) (.var r) ∈ li →
      (li.foldl add_instr_edges g).adj dst l
      ∧ (li.foldl add_instr_edges g).adj dst r
      ∧ (li.foldl add_instr_edges g).adj l r := by
    intro li
    induction li with
    | nil => intro g hg; cases hg
    | cons i rest ih =>
        intro g hg
        rcases List.mem_cons.mp hg with rfl | hg'
        · have hstep : add_instr_edges g (SsaInstr.add dst (.var l) (.var r))
              = ((g.add_edge dst l).add_edge dst r).add_edge l r := by
            rw [add_instr_edges]
            simp [hty, SsaVarOrConst.get_var]
          rw [List.foldl_cons, hstep]
          refine ⟨adj_mono_foldl rest _ ?_, adj_mono_foldl rest _ ?_,
            adj_mono_foldl rest _ ?_⟩
          · exact adj_mono_add_edge _ _
              (adj_mono_add_edge _ _ (adj_add_edge_left _ _ _))
          · exact adj_mono_add_edge _ _ (adj_add_edge_left _ _ _)
          · exact adj_add_edge_left _ _ _
        · rw [List.foldl_cons]
          exact ih _ hg'
  exact hgen instrs [] hmem

end Wasmcraft

namespace Wasmcraft

/-! ## C7: register distinctness of constrained instructions

The coalescing loop of `FullRegAlloc::analyze` maintains a partition of
the SSA variables into merged registers; interference edges keep
conflicting variables in different merged registers, and the emitted
registers are derived from each variable's merged-register
representative. -/

/-- All member ids of a register set, in partition order. -/
def mem_ids (sets : RegisterSet) : List Nat :=
  sets.flatMap fun s => s.members.map TypedSsaVar.id

/-- The running invariant of the coalescing loop of
`FullRegAlloc::analyze`: the merged registers partition variables with
globally distinct ids, every merged register is inhabited, no merged
register holds two distinct interfering variables, and every variable of
interest is in some merged register. -/
structure SetsInv (g : InterfGraph) (vars : List TypedSsaVar)
    (sets : RegisterSet) : Prop where
  nodup : (mem_ids sets).Nodup
  inhabited : ∀ s ∈ sets, s.members ≠ []
  sep : ∀ s ∈ sets, ∀ a ∈ s.members, ∀ b ∈ s.members,
    a ≠ b → ¬ InterfGraph.adj g a b
  cover : ∀ v ∈ vars, ∃ s ∈ sets, v ∈ s.members

/-- Removing an indexed element is a permutation-level cons split. -/
lemma perm_cons_eraseIdx {α : Type} :
    ∀ (l : List α) (i : Nat) (x : α), l[i]? = some x →
      l.Perm (x :: l.eraseIdx i) := by
  intro l
  induction l with
  | nil => intro i x h; simp at h
  | cons a t ih =>
      intro i x h
      cases i with
      | zero =>
          simp at h
          subst h
          simp
      | succ j =>
          simp at h
          have h2 := ih j x h
          rw [List.eraseIdx_cons_succ]
          exact (h2.cons a).trans (List.Perm.swap x a _)

/-- `findIdx?` (with running counter) finds an index at or past the
counter whose element satisfies the predicate. -/
lemma findIdx_go_spec {α : Type} (p : α → Bool) :
    ∀ (l : List α) (s i : Nat), List.findIdx? p l s = some i →
      ∃ x, l[i - s]? = some x ∧ p x = true ∧ s ≤ i := by
  intro l
  induction l with
  | nil => intro s i h; rw [List.findIdx?_nil] at h; cases h
  | cons a t ih =>
      intro s i h
      rw [List.findIdx?_cons] at h
      by_cases hpa : p a = true
      · rw [if_pos hpa] at h
        cases h
        exact ⟨a, by simp, hpa, Nat.le_refl _⟩
      · rw [if_neg hpa] at h
        obtain ⟨x, hx, hpx, hsi⟩ := ih (s + 1) i h
        refine ⟨x, ?_, hpx, Nat.le_trans (Nat.le_succ s) hsi⟩
        have hss : i - s = (i - (s + 1)) + 1 := by omega
        rw [hss]
        simpa using hx

/-- `findIdx?` from the default start: the found index carries an
element satisfying the predicate. -/
lemma findIdx_spec {α : Type} (p : α → Bool) (l : List α) (i : Nat)
    (h : l.findIdx? p = some i) : ∃ x, l[i]? = some x ∧ p x = true := by
  obtain ⟨x, hx, hpx, _⟩ := findIdx_go_spec p l 0 i h
  exact ⟨x, by simpa using hx, hpx⟩

/-- Under globally distinct member ids, an id determines its merged
register: two members of the partition sharing an id are the same
set. -/
lemma container_unique :
    ∀ (sets : RegisterSet), (mem_ids sets).Nodup →
      ∀ x ∈ sets, ∀ y ∈ sets, ∀ i : Nat,
        i ∈ x.members.map TypedSsaVar.id →
        i ∈ y.members.map TypedSsaVar.id → x = y := by
  intro sets
  induction sets with
  | nil => intro _ x hx; cases hx
  | cons s t ih =>
      intro hnd x hx y hy i hix hiy
      rw [show mem_ids (s :: t) = s.members.map TypedSsaVar.id ++ mem_ids t
          from List.flatMap_cons s t _] at hnd
      obtain ⟨hnd1, hnd2, hdisj⟩ := List.nodup_append.mp hnd
      rcases List.mem_cons.mp hx with rfl | hx'
      · rcases List.mem_cons.mp hy with rfl | hy'
        · rfl
        · exact absurd (List.mem_flatMap.mpr ⟨y, hy', hiy⟩) (hdisj hix)
      · rcases List.mem_cons.mp hy with rfl | hy'
        · exact absurd (List.mem_flatMap.mpr ⟨x, hx', hix⟩) (hdisj hiy)
        · exact ih hnd2 x hx' y hy' i hix hiy

/-- An interference edge between members makes the merged registers
interfere. -/
lemma interferes_of_adj (g : InterfGraph) (X Y : MergedRegister)
    (a b : TypedSsaVar) (ha : a ∈ X.members) (hb : b ∈ Y.members)
    (hadj : InterfGraph.adj g a b) : g.interferes X Y = true := by
  rw [InterfGraph.interferes, List.any_eq_true]
  refine ⟨a, ha, ?_⟩
  rw [List.any_eq_true]
  exact ⟨b, hadj, by simpa using hb⟩

/-- `RegisterSet::merge` splits off the two containing sets and appends
their union: characterisation of a successful merge. -/
lemma merge_spec (sets : RegisterSet) (var1 var2 : TypedSsaVar)
    (sets' : RegisterSet)
    (hm : RegisterSet.merge sets var1 var2 = some sets') :
    ∃ m1 m2 rest, sets.Perm (m1 :: m2 :: rest)
      ∧ var1 ∈ m1.members ∧ var2 ∈ m2.members
      ∧ sets' = rest ++ [⟨m1.members ++ m2.members,
            m1.live_range.mergeRange m2.live_range⟩] := by
  cases h1 : sets.findIdx? (fun s => decide (var1 ∈ s.members)) with
  | none => simp [RegisterSet.merge, h1] at hm
  | some r1 =>
  cases h2 : sets[r1]? with
  | none => simp [RegisterSet.merge, h1, h2] at hm
  | some m1 =>
  cases h3 : (sets.eraseIdx r1).findIdx? (fun s => decide (var2 ∈ s.members)) with
  | none => simp [RegisterSet.merge, h1, h2, h3] at hm
  | some r2 =>
  cases h4 : (sets.eraseIdx r1)[r2]? with
  | none => simp [RegisterSet.merge, h1, h2, h3, h4] at hm
  | some m2 =>
  have hm' : sets' = (sets.eraseIdx r1).eraseIdx r2
      ++ [⟨m1.members ++ m2.members,
            m1.live_range.mergeRange m2.live_range⟩] := by
    simp [RegisterSet.merge, h1, h2, h3, h4] at hm
    first
      | exact hm
      | exact hm.symm
  refine ⟨m1, m2, (sets.eraseIdx r1).eraseIdx r2, ?_, ?_, ?_, hm'⟩
  · have hp1 := perm_cons_eraseIdx sets r1 m1 h2
    have hp2 := perm_cons_eraseIdx (sets.eraseIdx r1) r2 m2 h4
    exact hp1.trans (hp2.cons m1)
  · obtain ⟨x, hx, hpx⟩ := findIdx_spec _ sets r1 h1
    rw [h2] at hx
    cases hx
    simpa using hpx
  · obtain ⟨x, hx, hpx⟩ := findIdx_spec _ (sets.eraseIdx r1) r2 h3
    rw [h4] at hx
    cases hx
    simpa using hpx

/-- A successful `RegisterSet::merge` of two non-interfering sets
preserves the coalescing invariant. -/
lemma merge_preserves_inv (g : InterfGraph) (vars : List TypedSsaVar)
    (sets sets' : RegisterSet) (v1 v2 : TypedSsaVar)
    (ds ss : MergedRegister)
    (hm : sets.merge v1 v2 = some sets')
    (hinv : SetsInv g vars sets) (hsym : InterfGraph.Sym g)
    (hds : sets.getSet v1 = some ds) (hss : sets.getSet v2 = some ss)
    (hni : g.interferes ds ss = false) :
    SetsInv g vars sets' := by
  obtain ⟨m1, m2, rest, hperm, hv1, hv2, hsets'⟩ :=
    merge_spec sets v1 v2 sets' hm
  have hm1 : m1 ∈ sets := hperm.symm.subset (by simp)
  have hm2 : m2 ∈ sets := hperm.symm.subset (by simp)
  have hds_mem : ds ∈ sets := List.mem_of_find?_eq_some hds
  have hds_p : v1 ∈ ds.members := by simpa using List.find?_some hds
  have hss_mem : ss ∈ sets := List.mem_of_find?_eq_some hss
  have hss_p : v2 ∈ ss.members := by simpa using List.find?_some hss
  have hdm1 : ds = m1 :=
    container_unique sets hinv.nodup ds hds_mem m1 hm1 v1.id
      (List.mem_map_of_mem _ hds_p) (List.mem_map_of_mem _ hv1)
  have hsm2 : ss = m2 :=
    container_unique sets hinv.nodup ss hss_mem m2 hm2 v2.id
      (List.mem_map_of_mem _ hss_p) (List.mem_map_of_mem _ hv2)
  have hids_perm : (mem_ids sets').Perm (mem_ids sets) := by
    rw [hsets']
    have h1 : (mem_ids sets).Perm (mem_ids (m1 :: m2 :: rest)) :=
      perm_flatMap _ hperm
    have h2 : mem_ids (m1 :: m2 :: rest)
        = (m1.members.map TypedSsaVar.id ++ m2.members.map TypedSsaVar.id)
          ++ mem_ids rest := by
      rw [mem_ids, List.flatMap_cons, List.flatMap_cons, List.append_assoc]
      rfl
    have h3 : mem_ids (rest ++ [⟨m1.members ++ m2.members,
          m1.live_range.mergeRange m2.live_range⟩])
        = mem_ids rest
          ++ (m1.members.map TypedSsaVar.id ++ m2.members.map TypedSsaVar.id) := by
      rw [mem_ids, List.flatMap_append]
      simp [mem_ids]
    rw [h3]
    exact List.perm_append_comm.trans (h2 ▸ h1.symm)
  have hmem_new : ∀ s, s ∈ sets' → s ∈ rest
      ∨ s = ⟨m1.members ++ m2.members,
            m1.live_range.mergeRange m2.live_range⟩ := by
    intro s hs
    rw [hsets'] at hs
    rcases List.mem_append.mp hs with h | h
    · exact Or.inl h
    · exact Or.inr (by simpa using h)
  have hrest_sub : ∀ s, s ∈ rest → s ∈ sets := by
    intro s hs
    exact hperm.symm.subset (List.mem_cons_of_mem _ (List.mem_cons_of_mem _ hs))
  refine ⟨hids_perm.symm.nodup hinv.nodup, ?_, ?_, ?_⟩
  · intro s hs
    rcases hmem_new s hs with h | rfl
    · exact hinv.inhabited s (hrest_sub s h)
    · have := hinv.inhabited m1 hm1
      simp only []
      intro hemp
      exact this (List.append_eq_nil.mp hemp).1
  · intro s hs a ha b hb hne hadj
    rcases hmem_new s hs with h | rfl
    · exact hinv.sep s (hrest_sub s h) a ha b hb hne hadj
    · simp only [] at ha hb
      rcases List.mem_append.mp ha with ha1 | ha2
      · rcases List.mem_append.mp hb with hb1 | hb2
        · exact hinv.sep m1 hm1 a ha1 b hb1 hne hadj
        · have : g.interferes ds ss = true := by
            rw [hdm1, hsm2]
            exact interferes_of_adj g m1 m2 a b ha1 hb2 hadj
          rw [hni] at this
          cases this
      · rcases List.mem_append.mp hb with hb1 | hb2
        · have : g.interferes ds ss = true := by
            rw [hdm1, hsm2]
            exact interferes_of_adj g m1 m2 b a hb1 ha2 (hsym a b hadj)
          rw [hni] at this
          cases this
        · exact hinv.sep m2 hm2 a ha2 b hb2 hne hadj
  · intro v hv
    obtain ⟨s, hs, hvs⟩ := hinv.cover v hv
    have hs3 : s ∈ m1 :: m2 :: rest := hperm.subset hs
    rcases List.mem_cons.mp hs3 with rfl | hs4
    · exact ⟨⟨s.members ++ m2.members,
          s.live_range.mergeRange m2.live_range⟩,
        by rw [hsets']; simp, List.mem_append_left _ hvs⟩
    rcases List.mem_cons.mp hs4 with rfl | hs5
    · exact ⟨⟨m1.members ++ s.members,
          m1.live_range.mergeRange s.live_range⟩,
        by rw [hsets']; simp, List.mem_append_right _ hvs⟩
    · exact ⟨s, by rw [hsets']; exact List.mem_append_left _ hs5, hvs⟩

/-- `try_merge` preserves the coalescing invariant: every non-fatal
outcome either keeps the register set or performs a guarded merge. -/
lemma try_merge_preserves (g : InterfGraph) (vars : List TypedSsaVar)
    (sets sets' : RegisterSet) (b : BlockId) (ii : Nat)
    (dst src : TypedSsaVar)
    (hstep : try_merge sets b ii dst src g = .ok sets')
    (hinv : SetsInv g vars sets) (hsym : InterfGraph.Sym g) :
    SetsInv g vars sets' := by
  cases h1 : sets.get_idx dst with
  | none => simp [try_merge, h1] at hstep
  | some i1 =>
  cases h2 : sets.get_idx src with
  | none => simp [try_merge, h1, h2] at hstep
  | some i2 =>
  by_cases hii : i1 = i2
  · simp [try_merge, h1, h2, hii] at hstep
    exact hstep ▸ hinv
  cases hd : sets.getSet dst with
  | none => simp [try_merge, h1, h2, hii, hd] at hstep
  | some dst_set =>
  cases hs : sets.getSet src with
  | none => simp [try_merge, h1, h2, hii, hd, hs] at hstep
  | some src_set =>
  by_cases hint : g.interferes dst_set src_set = true
  · simp [try_merge, h1, h2, hii, hd, hs, hint] at hstep
    exact hstep ▸ hinv
  rw [Bool.not_eq_true] at hint
  by_cases hde : dst_set.live_range.is_empty = true
  · simp [try_merge, h1, h2, hii, hd, hs, hint, hde] at hstep
    exact hstep ▸ hinv
  rw [Bool.not_eq_true] at hde
  by_cases hse : src_set.live_range.is_empty = true
  · simp [try_merge, h1, h2, hii, hd, hs, hint, hde, hse] at hstep
    exact hstep ▸ hinv
  rw [Bool.not_eq_true] at hse
  by_cases hov : (dst_set.live_range.overlap src_set.live_range).is_empty = true
  · cases hget : dst_set.live_range.get b with
    | none => simp [try_merge, h1, h2, hii, hd, hs, hint, hde, hse, hov, hget] at hstep
    | some dbl =>
      by_cases hany : (dbl.body.any fun r => r.containsIdx (ii + 1)) = true
      · cases hmg : sets.merge dst src with
        | none =>
            simp [try_merge, h1, h2, hii, hd, hs, hint, hde, hse, hov, hget,
              hany, hmg] at hstep
        | some sets₂ =>
            simp [try_merge, h1, h2, hii, hd, hs, hint, hde, hse, hov, hget,
              hany, hmg] at hstep
            exact hstep ▸
              merge_preserves_inv g vars sets sets₂ dst src dst_set src_set
                hmg hinv hsym hd hs hint
      · simp [try_merge, h1, h2, hii, hd, hs, hint, hde, hse, hov, hget,
          hany] at hstep
  · simp [try_merge, h1, h2, hii, hd, hs, hint, hde, hse, hov] at hstep
    exact hstep ▸ hinv

/-- `try_merge_term` preserves the coalescing invariant. -/
lemma try_merge_term_preserves (g : InterfGraph) (vars : List TypedSsaVar)
    (sets sets' : RegisterSet) (b : BlockId) (dst src : TypedSsaVar)
    (succs : List BlockId)
    (hstep : try_merge_term sets b dst src succs g = .ok sets')
    (hinv : SetsInv g vars sets) (hsym : InterfGraph.Sym g) :
    SetsInv g vars sets' := by
  cases h1 : sets.get_idx dst with
  | none => simp [try_merge_term, h1] at hstep
  | some i1 =>
  cases h2 : sets.get_idx src with
  | none => simp [try_merge_term, h1, h2] at hstep
  | some i2 =>
  by_cases hii : i1 = i2
  · simp [try_merge_term, h1, h2, hii] at hstep
    exact hstep ▸ hinv
  cases hd : sets.getSet dst with
  | none => simp [try_merge_term, h1, h2, hii, hd] at hstep
  | some dst_set =>
  cases hs : sets.getSet src with
  | none => simp [try_merge_term, h1, h2, hii, hd, hs] at hstep
  | some src_set =>
  by_cases hde : dst_set.live_range.is_empty = true
  · simp [try_merge_term, h1, h2, hii, hd, hs, hde] at hstep
  rw [Bool.not_eq_true] at hde
  by_cases hse : src_set.live_range.is_empty = true
  · simp [try_merge_term, h1, h2, hii, hd, hs, hde, hse] at hstep
  rw [Bool.not_eq_true] at hse
  by_cases hint : g.interferes dst_set src_set = true
  · simp [try_merge_term, h1, h2, hii, hd, hs, hde, hse, hint] at hstep
    exact hstep ▸ hinv
  rw [Bool.not_eq_true] at hint
  cases hcs : check_succs dst_set.live_range succs with
  | none => simp [try_merge_term, h1, h2, hii, hd, hs, hde, hse, hint, hcs] at hstep
  | some bb =>
  cases bb with
  | true =>
      simp [try_merge_term, h1, h2, hii, hd, hs, hde, hse, hint, hcs] at hstep
      exact hstep ▸ hinv
  | false =>
  by_cases hov : (dst_set.live_range.overlap src_set.live_range).is_empty = true
  · cases hmg : sets.merge dst src with
    | none =>
        simp [try_merge_term, h1, h2, hii, hd, hs, hde, hse, hint, hcs, hov,
          hmg] at hstep
    | some sets₂ =>
        simp [try_merge_term, h1, h2, hii, hd, hs, hde, hse, hint, hcs, hov,
          hmg] at hstep
        exact hstep ▸
          merge_preserves_inv g vars sets sets₂ dst src dst_set src_set
            hmg hinv hsym hd hs hint
  · simp [try_merge_term, h1, h2, hii, hd, hs, hde, hse, hint, hcs, hov] at hstep
    exact hstep ▸ hinv

/-- A coalescing request recorded by the scan of `FullRegAlloc::analyze`
(`reg_alloc.rs` lines 352–367): an instruction-derived pair or a
terminator-induced pair. -/
inductive MergeReq where
  | instr (block_id : BlockId) (instr_idx : Nat) (dst src : TypedSsaVar)
  | term (block_id : BlockId) (dst src : TypedSsaVar) (succs : List BlockId)
deriving DecidableEq, Repr

/-- One coalescing attempt of the scan. -/
def apply_merge (g : InterfGraph) (sets : RegisterSet) : MergeReq → MergeResult
  | .instr b i dst src => try_merge sets b i dst src g
  | .term b dst src succs => try_merge_term sets b dst src succs g

/-- The complete coalescing scan of `FullRegAlloc::analyze`, stopping at
the first panic. -/
def apply_merges (g : InterfGraph) (sets : RegisterSet) :
    List MergeReq → MergeResult
  | [] => .ok sets
  | r :: rest =>
      match apply_merge g sets r with
      | .ok sets₂ => apply_merges g sets₂ rest
      | .fatal => .fatal

/-- A single attempt preserves the invariant. -/
lemma apply_merge_preserves (g : InterfGraph) (vars : List TypedSsaVar)
    (sets sets' : RegisterSet) (r : MergeReq)
    (hstep : apply_merge g sets r = .ok sets')
    (hinv : SetsInv g vars sets) (hsym : InterfGraph.Sym g) :
    SetsInv g vars sets' := by
  cases r with
  | instr b i dst src =>
      exact try_merge_preserves g vars sets sets' b i dst src hstep hinv hsym
  | term b dst src succs =>
      exact try_merge_term_preserves g vars sets sets' b dst src succs
        hstep hinv hsym

/-- The whole scan preserves the invariant. -/
lemma apply_merges_preserves (g : InterfGraph) (vars : List TypedSsaVar) :
    ∀ (reqs : List MergeReq) (sets sets' : RegisterSet),
      apply_merges g sets reqs = .ok sets' →
      SetsInv g vars sets → InterfGraph.Sym g → SetsInv g vars sets' := by
  intro reqs
  induction reqs with
  | nil =>
      intro sets sets' h hinv _
      simp [apply_merges] at h
      exact h ▸ hinv
  | cons r rest ih =>
      intro sets sets' h hinv hsym
      cases hstep : apply_merge g sets r with
      | fatal => simp [apply_merges, hstep] at h
      | ok sets₂ =>
          simp only [apply_merges, hstep] at h
          exact ih sets₂ sets' h
            (apply_merge_preserves g vars sets sets₂ r hstep hinv hsym) hsym

/-- `RegisterSet::new` (`reg_alloc.rs` lines 187–203): one singleton
merged register per variable of the function, carrying that variable's
live range. -/
def RegisterSet.new (vars : List TypedSsaVar) (lr : TypedSsaVar → LiveRange) :
    RegisterSet :=
  vars.map fun v => ⟨[v], lr v⟩

/-- The member ids of the initial partition are the variable ids. -/
lemma mem_ids_new (vars : List TypedSsaVar) (lr : TypedSsaVar → LiveRange) :
    mem_ids (RegisterSet.new vars lr) = vars.map TypedSsaVar.id := by
  induction vars with
  | nil => rfl
  | cons v t ih =>
      show v.id :: mem_ids (RegisterSet.new t lr)
        = v.id :: t.map TypedSsaVar.id
      rw [ih]

/-- The initial partition satisfies the coalescing invariant whenever
the variable ids are distinct. -/
lemma new_inv (g : InterfGraph) (vars : List TypedSsaVar)
    (lr : TypedSsaVar → LiveRange)
    (hnd : (vars.map TypedSsaVar.id).Nodup) :
    SetsInv g vars (RegisterSet.new vars lr) := by
  refine ⟨by rw [mem_ids_new]; exact hnd, ?_, ?_, ?_⟩
  · intro s hs
    obtain ⟨v, _, rfl⟩ := List.mem_map.mp hs
    simp
  · intro s hs a ha b hb hne
    obtain ⟨v, _, rfl⟩ := List.mem_map.mp hs
    simp only [List.mem_singleton] at ha hb
    subst ha
    subst hb
    exact absurd rfl hne
  · intro v hv
    exact ⟨⟨[v], lr v⟩, List.mem_map_of_mem _ hv, by simp⟩

/-- A `min`-fold lands on one of its inputs. -/
lemma foldl_min_mem : ∀ (t : List Nat) (x : Nat), t.foldl min x ∈ x :: t := by
  intro t
  induction t with
  | nil => intro x; simp
  | cons y s ih =>
      intro x
      rw [List.foldl_cons]
      have h := ih (min x y)
      rcases List.mem_cons.mp h with h1 | h1
      · rcases min_choice x y with hm | hm
        · rw [h1, hm]
          exact List.mem_cons_self _ _
        · rw [h1, hm]
          exact List.mem_cons_of_mem _ (List.mem_cons_self _ _)
      · exact List.mem_cons_of_mem _ (List.mem_cons_of_mem _ h1)

/-- The representative id of a merged register: the least member id.
`to_map` (`reg_alloc.rs` lines 209–218) takes `members.iter().next()`,
the least member of the `BTreeSet` under the lexicographic `(id, ty)`
derived order, and keeps its id — the least id present. -/
def min_id (s : MergedRegister) : Nat :=
  match s.members with
  | [] => 0
  | x :: xs => (xs.map TypedSsaVar.id).foldl min x.id

/-- The representative id is the id of some member. -/
lemma min_id_mem (s : MergedRegister) (h : s.members ≠ []) :
    min_id s ∈ s.members.map TypedSsaVar.id := by
  cases hm : s.members with
  | nil => exact absurd hm h
  | cons x xs =>
      have he : min_id s = (xs.map TypedSsaVar.id).foldl min x.id := by
        simp only [min_id, hm]
      rw [he, List.map_cons]
      exact foldl_min_mem (xs.map TypedSsaVar.id) x.id

/-- The register id `FullRegAlloc` assigns to a variable id: the
representative id of the merged register containing it (`to_map` /
`RegAlloc::get`); `0` stands for the unreachable `unwrap` panic on an
unknown variable. -/
def rep_id (sets : RegisterSet) (v : Nat) : Nat :=
  match sets.find? fun s => s.members.any fun m => m.id == v with
  | some s => min_id s
  | none => 0

/-- `FullRegAlloc` as an allocator map (`reg_alloc.rs` lines 375–384):
work registers indexed by the merged-register representative. -/
def FullRegAlloc.ra (func : Nat) (sets : RegisterSet) : RA :=
  ⟨fun v => Register.work_lo func (rep_id sets v),
   fun v => DoubleRegister.work func (rep_id sets v)⟩

/-- Under the invariant, `rep_id` resolves through the (unique)
containing merged register. -/
lemma rep_id_eq (sets : RegisterSet) (hnd : (mem_ids sets).Nodup)
    (S : MergedRegister) (hS : S ∈ sets) (v : TypedSsaVar)
    (hv : v ∈ S.members) : rep_id sets v.id = min_id S := by
  cases hf : sets.find? (fun s => s.members.any fun m => m.id == v.id) with
  | none =>
      have hnone := List.find?_eq_none.mp hf S hS
      refine absurd ?_ hnone
      rw [List.any_eq_true]
      exact ⟨v, hv, by simp⟩
  | some x =>
      have hx_mem : x ∈ sets := List.mem_of_find?_eq_some hf
      have hx_p := List.find?_some hf
      rw [List.any_eq_true] at hx_p
      obtain ⟨m, hm, hmid⟩ := hx_p
      have hmid' : m.id = v.id := by simpa using hmid
      have hxS : x = S := container_unique sets hnd x hx_mem S hS v.id
        (hmid' ▸ List.mem_map_of_mem _ hm) (List.mem_map_of_mem _ hv)
      simp only [rep_id, hf]
      rw [hxS]

/-- Two distinct interfering variables get distinct representative
ids. -/
lemma rep_distinct (g : InterfGraph) (vars : List TypedSsaVar)
    (sets : RegisterSet) (hinv : SetsInv g vars sets)
    (a b : TypedSsaVar) (ha : a ∈ vars) (hb : b ∈ vars)
    (hne : a ≠ b) (hadj : InterfGraph.adj g a b) :
    rep_id sets a.id ≠ rep_id sets b.id := by
  obtain ⟨Sa, hSa, haSa⟩ := hinv.cover a ha
  obtain ⟨Sb, hSb, hbSb⟩ := hinv.cover b hb
  have hdiff : Sa ≠ Sb := by
    rintro rfl
    exact hinv.sep Sa hSa a haSa b hbSb hne hadj
  rw [rep_id_eq sets hinv.nodup Sa hSa a haSa,
      rep_id_eq sets hinv.nodup Sb hSb b hbSb]
  intro heq
  have hma : min_id Sa ∈ Sa.members.map TypedSsaVar.id :=
    min_id_mem Sa (hinv.inhabited Sa hSa)
  have hmb : min_id Sb ∈ Sb.members.map TypedSsaVar.id :=
    min_id_mem Sb (hinv.inhabited Sb hSb)
  exact hdiff (container_unique sets hinv.nodup Sa hSa Sb hSb (min_id Sa)
    hma (heq ▸ hmb))

/-- The `Add` arm of `lower_block` for a 64-bit destination
(`lir_emitter.rs` lines 407–424 via `do_binop`, lines 122–140): a single
`Add64(ra.get_double(dst), map_ra_i64(lhs), map_ra_i64(rhs))`. -/
def lower_add_i64 (ra : RA) (dst : TypedSsaVar) (lhs rhs : SsaVarOrConst) :
    LirInstr :=
  .add64 (ra.getDouble dst.id) (map_ra_i64 lhs ra) (map_ra_i64 rhs ra)

/-- C7 counterexample: an SSA `Add` whose two source operands are the
*same* variable (`(i64.add (local.get 0) (local.get 0))` produces one)
is lowered to an `Add64` whose two operand registers coincide, under the
no-op allocator and under the full allocator alike — the claimed
pairwise distinctness of the three registers fails. -/
theorem add64_operand_alias_counterexample :
    lower_add_i64 (NoopRegAlloc.ra 0) ⟨2, .i64⟩
        (.var ⟨1, .i64⟩) (.var ⟨1, .i64⟩)
      = LirInstr.add64 (.work 0 2) (.work 0 1) (.work 0 1)
    ∧ lower_add_i64
        (FullRegAlloc.ra 0
          (RegisterSet.new [⟨1, .i64⟩, ⟨2, .i64⟩] fun _ => []))
        ⟨2, .i64⟩ (.var ⟨1, .i64⟩) (.var ⟨1, .i64⟩)
      = LirInstr.add64 (.work 0 2) (.work 0 1) (.work 0 1) := by
  decide

/-- C7 amended: for every 64-bit `Add` whose destination and two source
operands are pairwise *distinct* SSA variables, the emitted `Add64` has
pairwise distinct destination and operand registers — under the no-op
allocator (distinct ids give distinct work registers) and under the full
allocator after any sequence of coalescing attempts (the interference
edges recorded by `InterfGraph::new` keep the three variables in three
different merged registers, whose representatives differ); but when the
two source operands are the same SSA variable both operand registers
coincide under either allocator. -/
theorem add64_operands_pairwise_distinct_amended :
    (∀ (func : Nat) (dst l r : TypedSsaVar),
      dst.ty = .i64 →
      dst.id ≠ l.id → dst.id ≠ r.id → l.id ≠ r.id →
      ∃ d a b,
        lower_add_i64 (NoopRegAlloc.ra func) dst (.var l) (.var r)
          = .add64 d a b
        ∧ d ≠ a ∧ d ≠ b ∧ a ≠ b)
    ∧ (∀ (func : Nat) (instrs : List SsaInstr) (vars : List TypedSsaVar)
        (lr : TypedSsaVar → LiveRange) (reqs : List MergeReq)
        (sets' : RegisterSet) (dst l r : TypedSsaVar),
      (vars.map TypedSsaVar.id).Nodup →
      dst ∈ vars → l ∈ vars → r ∈ vars →
      dst ≠ l → dst ≠ r → l ≠ r →
      dst.ty = .i64 →
      SsaInstr.add dst (.var l) (.var r) ∈ instrs →
      apply_merges (InterfGraph.new instrs) (RegisterSet.new vars lr) reqs
        = .ok sets' →
      ∃ d a b,
        lower_add_i64 (FullRegAlloc.ra func sets') dst (.var l) (.var r)
          = .add64 d a b
        ∧ d ≠ a ∧ d ≠ b ∧ a ≠ b) := by
  constructor
  · intro func dst l r _ hdl hdr hlr
    refine ⟨.work func dst.id, .work func l.id, .work func r.id,
      by simp [lower_add_i64, NoopRegAlloc.ra, map_ra_i64], ?_, ?_, ?_⟩
    · simp [hdl]
    · simp [hdr]
    · simp [hlr]
  · intro func instrs vars lr reqs sets' dst l r hnd hdmem hlmem hrmem
      hdl hdr hlr hty hmem happ
    have hsym := sym_interf_graph_new instrs
    have hedges := interf_graph_add64_edges instrs dst l r hty hmem
    have hinv := apply_merges_preserves (InterfGraph.new instrs) vars reqs
      (RegisterSet.new vars lr) sets' happ
      (new_inv (InterfGraph.new instrs) vars lr hnd) hsym
    have h1 : rep_id sets' dst.id ≠ rep_id sets' l.id :=
      rep_distinct (InterfGraph.new instrs) vars sets' hinv dst l
        hdmem hlmem hdl hedges.1
    have h2 : rep_id sets' dst.id ≠ rep_id sets' r.id :=
      rep_distinct (InterfGraph.new instrs) vars sets' hinv dst r
        hdmem hrmem hdr hedges.2.1
    have h3 : rep_id sets' l.id ≠ rep_id sets' r.id :=
      rep_distinct (InterfGraph.new instrs) vars sets' hinv l r
        hlmem hrmem hlr hedges.2.2
    refine ⟨.work func (rep_id sets' dst.id),
      .work func (rep_id sets' l.id), .work func (rep_id sets' r.id),
      by simp [lower_add_i64, FullRegAlloc.ra, map_ra_i64], ?_, ?_, ?_⟩
    · simp [h1]
    · simp [h2]
    · simp [h3]

/-- Witness for C7's amended theorem: a concrete three-variable function
with one 64-bit `Add` — under the no-op allocator and under the full
allocator after the (empty) coalescing scan, the `Add64`'s three
registers are pairwise distinct. -/
theorem add64_operands_pairwise_distinct_witness :
    ValType.i64 = ValType.i64
    ∧ (∃ d a b,
        lower_add_i64 (NoopRegAlloc.ra 0) ⟨0, .i64⟩
            (.var ⟨1, .i64⟩) (.var ⟨2, .i64⟩)
          = .add64 d a b
        ∧ d ≠ a ∧ d ≠ b ∧ a ≠ b)
    ∧ (∃ d a b,
        lower_add_i64
            (FullRegAlloc.ra 0
              (RegisterSet.new [⟨0, .i64⟩, ⟨1, .i64⟩, ⟨2, .i64⟩] fun _ => []))
            ⟨0, .i64⟩ (.var ⟨1, .i64⟩) (.var ⟨2, .i64⟩)
          = .add64 d a b
        ∧ d ≠ a ∧ d ≠ b ∧ a ≠ b) := by
  refine ⟨rfl, ?_, ?_⟩
  · exact add64_operands_pairwise_distinct_amended.1 0
      ⟨0, .i64⟩ ⟨1, .i64⟩ ⟨2, .i64⟩ rfl
      (by decide) (by decide) (by decide)
  · exact add64_operands_pairwise_distinct_amended.2 0
      [SsaInstr.add ⟨0, .i64⟩ (.var ⟨1, .i64⟩) (.var ⟨2, .i64⟩)]
      [⟨0, .i64⟩, ⟨1, .i64⟩, ⟨2, .i64⟩] (fun _ => []) []
      (RegisterSet.new [⟨0, .i64⟩, ⟨1, .i64⟩, ⟨2, .i64⟩] fun _ => [])
      ⟨0, .i64⟩ ⟨1, .i64⟩ ⟨2, .i64⟩
      (by decide) (by decide) (by decide) (by decide)
      (by decide) (by decide) (by decide) rfl
      (by decide) rfl

end Wasmcraft
